import Mathlib

/-!
Verification of the multi-stage retrieval funnel and synthesis-report
validator of the brilliance research-assistant backend.

Texts are modelled as lists of characters (`Text`).  The Python string
operations used by the code (split, strip, lower, join, substring search)
are embedded as executable functions over `Text`.  Newlines are `'\n'`
characters; carriage returns and non-ASCII whitespace, which the inputs of
the embedded pipeline never contain, are not given special treatment
beyond membership in the Python whitespace set.
-/

/-- Text is a sequence of characters, the model of a Python `str`. -/
abbrev Text := List Char

/-- Conversion from a Lean string literal to the `Text` model. -/
def txt (s : String) : Text := s.toList

/-- Python whitespace characters recognised by `str.strip` / `str.split()`
(the ASCII subset, which is all the pipeline ever strips). -/
def pyWs (c : Char) : Bool :=
  c = ' ' || c = '\t' || c = '\n' || c = '\r' || c = '\x0b' || c = '\x0c'

/-- Model of `str.lstrip()`. -/
def lstripT (t : Text) : Text := t.dropWhile pyWs

/-- Model of `str.rstrip()` (drop the trailing whitespace run). -/
def rstripT (t : Text) : Text := List.rdropWhile pyWs t

/-- Model of `str.strip()`. -/
def stripT (t : Text) : Text := rstripT (lstripT t)

/-- Model of `str.lower()` (ASCII case folding, which covers the pipeline's
inputs). -/
def lowerT (t : Text) : Text := t.map Char.toLower

/-- Does `hay` start with `needle`?  Model of `str.startswith`. -/
def startsWithT : Text → Text → Bool
  | _, [] => true
  | [], _ :: _ => false
  | c :: cs, d :: ds => c = d && startsWithT cs ds

/-- Split `hay` at the first occurrence of `needle`, returning the part
before and the part after the occurrence.  `none` when `needle` does not
occur.  Model of the `str.find` / `str.split(sep, 1)` idiom (callers only
use non-empty needles). -/
def breakSub (needle : Text) : Text → Option (Text × Text)
  | [] => if needle.isEmpty then some ([], []) else none
  | c :: rest =>
    if startsWithT (c :: rest) needle then some ([], (c :: rest).drop needle.length)
    else (breakSub needle rest).map (fun p => (c :: p.1, p.2))

/-- Model of the Python `in` substring test. -/
def containsSub (needle hay : Text) : Bool := (breakSub needle hay).isSome

/-- Model of `text.split(sep)` for a single-character separator. -/
def splitChar (sep : Char) : Text → List Text
  | [] => [[]]
  | c :: rest =>
    if c = sep then [] :: splitChar sep rest
    else
      match splitChar sep rest with
      | [] => [[c]]
      | h :: t => (c :: h) :: t

/-- Model of `text.split("\n\n")`: split on non-overlapping occurrences of
a blank-line separator, scanning left to right. -/
def splitNN : Text → List Text
  | [] => [[]]
  | [c] => [[c]]
  | c :: d :: rest =>
    if c = '\n' ∧ d = '\n' then [] :: splitNN rest
    else
      match splitNN (d :: rest) with
      | [] => [[c]]
      | h :: t => (c :: h) :: t

/-- Model of `"\n\n".join(blocks)`. -/
def joinNN : List Text → Text
  | [] => []
  | b :: bs =>
    b ++ (match bs with
          | [] => []
          | _ :: _ => '\n' :: '\n' :: joinNN bs)

/-- Model of `sep.join(pieces)` for an arbitrary separator. -/
def joinSep (sep : Text) : List Text → Text
  | [] => []
  | b :: bs =>
    b ++ (match bs with
          | [] => []
          | _ :: _ => sep ++ joinSep sep bs)

/-- `true` when the text contains no `"\n\n"` substring. -/
def noNN : Text → Bool
  | [] => true
  | [_] => true
  | c :: d :: rest => !(c = '\n' && d = '\n') && noNN (d :: rest)

/-- `true` when the text ends with a newline character. -/
def endsNL (t : Text) : Bool :=
  match t.getLast? with
  | some c => c = '\n'
  | none => false

/-- Model of `text.split()`: whitespace-separated words, no empties. -/
def wordsOf : Text → List Text
  | [] => []
  | c :: rest =>
    if pyWs c then wordsOf rest
    else
      match wordsOf rest with
      | [] => [[c]]
      | h :: t =>
        match rest with
        | [] => [[c]]
        | d :: _ => if pyWs d then [c] :: h :: t else (c :: h) :: t

/-- Model of `text.splitlines()` for `'\n'`-separated text: like
`split('\n')` but without a final empty piece when the text ends in a
newline, and `[]` on empty input. -/
def splitlinesNL (t : Text) : List Text :=
  if t.isEmpty then []
  else if endsNL t then (splitChar '\n' t).dropLast else splitChar '\n' t

/-- Decimal digits of a natural number, the model of `str(n)`. -/
def natToText (n : ℕ) : Text := Nat.toDigits 10 n

/-- Decimal rendering of a non-negative integer (all integers rendered by
the pipeline are results of `% 10000` and hence non-negative). -/
def intToText (i : ℤ) : Text :=
  if i < 0 then '-' :: natToText i.natAbs else natToText i.toNat

/-- Digit-run value for the Python `int()` grammar: digits optionally
separated by single underscores. -/
def digitsVal (t : Text) : Option ℕ :=
  if t.isEmpty then none
  else if (t.headD '0').isDigit ∧ (t.getLastD '0').isDigit ∧
          t.all (fun c => c.isDigit || c = '_') ∧ ¬ containsSub (txt "__") t then
    some ((t.filter Char.isDigit).foldl (fun acc c => 10 * acc + (c.toNat - '0'.toNat)) 0)
  else none

/-- Model of Python `int(s)` on a decimal string: surrounding whitespace
and an optional sign are accepted, anything else fails (raises). -/
def parsePyInt (t : Text) : Option ℤ :=
  match stripT t with
  | '+' :: ds => (digitsVal ds).map Int.ofNat
  | '-' :: ds => (digitsVal ds).map (fun n => -(n : ℤ))
  | ds => (digitsVal ds).map Int.ofNat

/-!
Paper record parsing (`relevance_filter.RelevanceFilter._parse_papers_from_text`).

Python's built-in string `hash` is seed-randomised, so it is modelled as a
parameter `pyHash : Text → ℤ`; every call site of `hash` in the embedded
code receives the same parameter, exactly as every call in one Python
process uses the same seed.
-/

/-- Does the text start with a `(dddd)` four-digit-year parenthesis? -/
def startsYearParen : Text → Bool
  | '(' :: a :: b :: c :: d :: ')' :: _ =>
    a.isDigit && b.isDigit && c.isDigit && d.isDigit
  | _ => false

/-- Digits of the first `(dddd)` occurrence, the model of
`re.search(r'\((\d{4})\)', line)`. -/
def findYearDigits : Text → Option Text
  | [] => none
  | c :: rest =>
    if startsYearParen (c :: rest) then some ((c :: rest).drop 1 |>.take 4)
    else findYearDigits rest

/-- Prefix of the text before the first `(dddd)` occurrence, `none` when
there is none. -/
def subYearAux : Text → Option Text
  | [] => none
  | c :: rest =>
    if startsYearParen (c :: rest) then some []
    else (subYearAux rest).map (fun p => c :: p)

/-- Model of `re.sub(r'\s*\(\d{4}\).*$', '', line)`: the regex's leftmost
match starts at the first `(dddd)` occurrence extended left over the
whitespace run immediately before it, and consumes the rest of the line;
removing that run is the same as right-stripping the prefix before the
parenthesis. -/
def subYear (t : Text) : Text :=
  match subYearAux t with
  | none => t
  | some pre => rstripT pre

/-- Normalised dedup key of a title line
(`re.sub(r'\s*\(\d{4}\).*$', '', title_line).strip().lower()`). -/
def cleanTitleKey (titleLine : Text) : Text := lowerT (stripT (subYear titleLine))

/-- First line of `block.strip()`. -/
def firstLineOfBlock (block : Text) : Text :=
  (splitChar '\n' (stripT block)).headD []

/-- Model of the `f"paper_{i}_{h}"` identifier format (`h` is already
reduced mod 10000, hence non-negative). -/
def mkPaperId (i : ℕ) (h : ℤ) : Text :=
  txt "paper_" ++ natToText i ++ '_' :: intToText h

/-- Structured paper record produced by `_parse_papers_from_text`. -/
structure ParsedPaper where
  paperId : Text
  title : Text
  abstract : Text
  authors : Text
  year : Text
  url : Text
  pdf : Text
deriving DecidableEq, Repr

/-- Field-extraction loop over the lines after the title line
(lines 134-151 of `relevance_filter.py`): accumulates
(abstract, authors, url, pdf). -/
def parsePaperFields : List Text → Text → Text → Text → Text → Text × Text × Text × Text
  | [], a, au, u, p => (a, au, u, p)
  | l0 :: rest, a, au, u, p =>
    let line := stripT l0
    if startsWithT line (txt "Abstract:") then
      parsePaperFields rest (stripT (line.drop 9)) au u p
    else if startsWithT line (txt "by ") then
      parsePaperFields rest a (stripT (line.drop 3)) u p
    else if startsWithT line (txt "URL:") then
      parsePaperFields rest a au (stripT (line.drop 4)) p
    else if startsWithT line (txt "PDF:") then
      parsePaperFields rest a au u (stripT (line.drop 4))
    else if ¬ containsSub (txt "Abstract:") line then
      if ¬ a.isEmpty then parsePaperFields rest (a ++ ' ' :: line) au u p
      else if au.isEmpty ∧ u.isEmpty ∧ p.isEmpty ∧ 50 < line.length then
        parsePaperFields rest line au u p
      else parsePaperFields rest a au u p
    else parsePaperFields rest a au u p

/-- Per-block body of `_parse_papers_from_text`; `i` is the enumeration
index over the `split('\n\n')` blocks (empty blocks advance the index as
well).  The `if not lines` branch of the source is dead code because
`split('\n')` never returns an empty list. -/
def parsePaperBlock (pyHash : Text → ℤ) (i : ℕ) (block : Text) : ParsedPaper :=
  let lines := splitChar '\n' (stripT block)
  let titleLine := lines.headD []
  let year := match findYearDigits titleLine with
              | some y => y
              | none => txt "Unknown"
  let title := stripT (subYear titleLine)
  let f := parsePaperFields lines.tail [] [] [] []
  { paperId := mkPaperId i ((pyHash title).emod 10000)
    title := title
    abstract := f.1
    authors := f.2.1
    year := year
    url := f.2.2.1
    pdf := f.2.2.2 }

/-- Indexed loop of `_parse_papers_from_text` over the paper blocks. -/
def parsePapersAux (pyHash : Text → ℤ) : ℕ → List Text → List ParsedPaper
  | _, [] => []
  | i, block :: bs =>
    if (stripT block).isEmpty then parsePapersAux pyHash (i + 1) bs
    else parsePaperBlock pyHash i block :: parsePapersAux pyHash (i + 1) bs

/-- Model of `RelevanceFilter._parse_papers_from_text`. -/
def parsePapersFromText (pyHash : Text → ℤ) (papersText : Text) : List ParsedPaper :=
  parsePapersAux pyHash 0 (splitNN papersText)

/-!
Deduplication (`EnhancedArxivSearch._deduplicate_papers`).
-/

/-- Loop of `_deduplicate_papers` with the running `seen_titles` set; the
iteration over blobs then blocks with one shared `seen` set is the
iteration over the flattened block list. -/
def dedupeBlocksAux (seen : List Text) : List Text → List Text
  | [] => []
  | b :: bs =>
    if (stripT b).isEmpty then dedupeBlocksAux seen bs
    else
      let key := cleanTitleKey (firstLineOfBlock b)
      if key ∈ seen then dedupeBlocksAux seen bs
      else stripT b :: dedupeBlocksAux (key :: seen) bs

/-- Model of `EnhancedArxivSearch._deduplicate_papers`. -/
def deduplicatePapers (paperTexts : List Text) : Text :=
  if paperTexts.isEmpty then txt "No papers found."
  else joinNN (dedupeBlocksAux [] (paperTexts.flatMap splitNN))

/-!
Rank-and-trim (`workflows._tokenize_for_scoring`, `_parse_source_chunks`,
`_score_chunk`, `rank_and_trim_results`).
-/

/-- Maximal runs of characters satisfying `p`, the model of
`re.findall` on a one-character-class `+` pattern. -/
def runsBy (p : Char → Bool) : Text → List Text
  | [] => []
  | c :: rest =>
    if p c then
      match rest with
      | [] => [[c]]
      | d :: _ =>
        if p d then
          match runsBy p rest with
          | [] => [[c]]
          | h :: t => (c :: h) :: t
        else [c] :: runsBy p rest
    else runsBy p rest

/-- Model of `_tokenize_for_scoring`:
`re.findall(r"[a-zA-Z0-9]+", text.lower())`. -/
def tokenizeForScoring (t : Text) : List Text := runsBy Char.isAlphanum (lowerT t)

/-- Lightweight per-chunk metadata extracted by `_parse_source_chunks`. -/
structure ChunkMeta where
  title : Text
  year : Text
  url : Text
deriving DecidableEq, Repr

/-- Metadata of one (already stripped) chunk, lines 197-211 of
`workflows.py`.  `c.split("\n", 1)[0] if "\n" in c else c` is the prefix
of `c` before the first newline in either case. -/
def chunkMetaOf (c : Text) : ChunkMeta :=
  let titleLine := c.takeWhile (fun ch => ch ≠ '\n')
  let title := match breakSub (txt " (") titleLine with
               | some pr => pr.1
               | none => titleLine
  let year :=
    if containsSub (txt "(") titleLine ∧ containsSub (txt ")") titleLine then
      let after := match breakSub (txt "(") titleLine with
                   | some pr => pr.2
                   | none => []
      match breakSub (txt ")") after with
      | some pr => pr.1
      | none => after
    else txt "N/A"
  let url := match breakSub (txt "URL:") c with
             | some pr => (wordsOf (stripT pr.2)).headD []
             | none => []
  { title := title, year := year, url := url }

/-- Values stored in the results dictionary: strings, or any non-string
value (which `_parse_source_chunks` rejects via its `isinstance` check). -/
inductive PyVal where
  | str : Text → PyVal
  | other : PyVal
deriving DecidableEq

/-- Model of `_parse_source_chunks`. -/
def parseSourceChunks (v : PyVal) : List (Text × ChunkMeta) :=
  match v with
  | .other => []
  | .str t =>
    if (stripT t).isEmpty then []
    else ((splitNN (stripT t)).filter (fun c => !(stripT c).isEmpty)).map
           (fun c => (stripT c, chunkMetaOf (stripT c)))

/-- Model of `_score_chunk`.  `datetime.now().year` is the parameter
`currentYear`; scores are exact rationals (every value the Python code
computes is a multiple of 0.5 and hence float-exact). -/
def scoreChunk (currentYear : ℤ) (query : Text) (meta : ChunkMeta) : ℚ :=
  let queryTokens := (tokenizeForScoring query).dedup
  let titleTokens := tokenizeForScoring meta.title
  let overlap : ℕ := (queryTokens.filter (fun t => t ∈ titleTokens)).length
  let base : ℚ := (overlap : ℚ) * 2
  match parsePyInt meta.year with
  | some y =>
    let age : ℤ := max 0 (currentYear - y)
    base + max 0 ((3 : ℚ) - (age : ℚ) * (1 / 2))
  | none => base

/-- Stable descending insertion: the new element goes in front of the
first element whose score is not larger.  Python's `list.sort(reverse=True)`
is stable, and the stable descending permutation of a list is unique, so
this insertion sort computes exactly what the source's sort call does. -/
def insertDesc (x : Text × ℚ) : List (Text × ℚ) → List (Text × ℚ)
  | [] => [x]
  | y :: ys => if x.2 < y.2 then y :: insertDesc x ys else x :: y :: ys

/-- Model of `scored.sort(key=lambda x: x[1], reverse=True)`. -/
def sortDesc : List (Text × ℚ) → List (Text × ℚ)
  | [] => []
  | x :: xs => insertDesc x (sortDesc xs)

/-- The results dictionary, modelled by its lookup function. -/
abbrev ResultsMap := Text → Option PyVal

/-- Model of `out[k] = v`. -/
def updateKey (m : ResultsMap) (k : Text) (v : PyVal) : ResultsMap :=
  fun x => if x = k then some v else m x

/-- Per-source body of the `rank_and_trim_results` loop: reads from the
original dictionary (`all_results.get(source, "")`), writes into the copy
`m`. -/
def trimStep (currentYear : ℤ) (results : ResultsMap) (query : Text) (maxTotal : ℕ)
    (m : ResultsMap) (s : Text) : ResultsMap :=
  let chunks := parseSourceChunks ((results s).getD (.str []))
  if chunks.isEmpty then m
  else
    let scored := chunks.map (fun p => (p.1, scoreChunk currentYear query p.2))
    let top := ((sortDesc scored).take maxTotal).map Prod.fst
    updateKey m s
      (if top.isEmpty then (results s).getD (.str (txt "No results"))
       else .str (joinNN top))

/-- Model of `rank_and_trim_results`.  The `try`/`except` wrapper of the
source returns the input unchanged on an exception; no operation in the
body can raise (the only fallible conversion, `int(year)`, is caught
inside `_score_chunk`), so the embedded function is the `try` body. -/
def rankAndTrimResults (currentYear : ℤ) (allResults : ResultsMap) (query : Text)
    (maxTotal : ℕ) : ResultsMap :=
  let s1 := trimStep currentYear allResults query maxTotal allResults (txt "arxiv")
  let s2 := trimStep currentYear allResults query maxTotal s1 (txt "pubmed")
  trimStep currentYear allResults query maxTotal s2 (txt "openalex")

/-!
Relevance filtering (`relevance_filter.py`).  The external scoring
capability (`Runner.run` + `json.loads` + the `float`/`bool` conversions of
its fields) is modelled as an `Except Unit AIEval` outcome: `.error`
covers a failed call, unparseable JSON, or a non-numeric score field, all
of which land in the same `except` clause of the source.
-/

/-- Per-paper relevance evaluation record (`PaperRelevanceScore`). -/
structure PaperRelevanceScore where
  paperId : Text
  title : Text
  relevanceScore : ℚ
  relevanceReasons : List Text
  keyConceptsMatched : List Text
  isRelevant : Bool
  confidence : ℚ
deriving DecidableEq, Repr

/-- Parsed JSON object returned by the external relevance capability;
absent fields model absent JSON keys (the source reads each with
`evaluation.get(key, default)`). -/
structure AIEval where
  paperId : Option Text
  relevanceScore : Option ℚ
  relevanceReasons : Option (List Text)
  keyConceptsMatched : Option (List Text)
  isRelevant : Option Bool
  confidence : Option ℚ
deriving DecidableEq, Repr

/-- Word characters of the `\b[a-zA-Z]{3,}\b` term pattern. -/
def wordChar (c : Char) : Bool := c.isAlphanum || c = '_'

/-- Model of `set(re.findall(r'\b[a-zA-Z]{3,}\b', query_lower))`: the
matches are exactly the maximal word-character runs that consist of
letters only and have length at least 3, and the set is modelled as the
deduplicated list (all uses are order-independent counts and filters). -/
def fallbackQueryTerms (queryLower : Text) : List Text :=
  ((runsBy wordChar queryLower).filter
    (fun r => decide (3 ≤ r.length) && r.all Char.isAlpha)).dedup

/-- Model of `RelevanceFilter._fallback_relevance_scoring`. -/
def fallbackRelevanceScoring (query : Text) (paper : ParsedPaper) : PaperRelevanceScore :=
  let queryLower := lowerT query
  let titleLower := lowerT paper.title
  let abstractLower := lowerT paper.abstract
  let queryTerms := fallbackQueryTerms queryLower
  let titleMatches := (queryTerms.filter (fun t => containsSub t titleLower)).length
  let abstractMatches := (queryTerms.filter (fun t => containsSub t abstractLower)).length
  let totalTerms := queryTerms.length
  let relevanceScore : ℚ :=
    if totalTerms = 0 then 0
    else min 1 ((7 / 10) * ((titleMatches : ℚ) / (totalTerms : ℚ)) +
                (3 / 10) * ((abstractMatches : ℚ) / (totalTerms : ℚ)))
  let matchedTerms := queryTerms.filter
    (fun t => containsSub t titleLower || containsSub t abstractLower)
  { paperId := paper.paperId
    title := paper.title
    relevanceScore := relevanceScore
    relevanceReasons := [txt "Keyword matching: " ++ natToText matchedTerms.length ++
                         txt "/" ++ natToText totalTerms ++ txt " terms matched"]
    keyConceptsMatched := matchedTerms
    isRelevant := decide ((4 : ℚ) / 10 ≤ relevanceScore)
    confidence := 3 / 5 }

/-- Model of `RelevanceFilter.evaluate_paper_relevance`: on a successful
external evaluation the parsed fields are passed through verbatim (the
score is not clamped); on failure the fallback scorer runs. -/
def evaluatePaperRelevance (aiOutcome : Except Unit AIEval) (query : Text)
    (paper : ParsedPaper) : PaperRelevanceScore :=
  match aiOutcome with
  | .error _ => fallbackRelevanceScoring query paper
  | .ok ev =>
    { paperId := ev.paperId.getD paper.paperId
      title := paper.title
      relevanceScore := ev.relevanceScore.getD 0
      relevanceReasons := ev.relevanceReasons.getD []
      keyConceptsMatched := ev.keyConceptsMatched.getD []
      isRelevant := ev.isRelevant.getD false
      confidence := ev.confidence.getD 0 }

/-!
Domain classification (`domain_classifier.py`).  The rule-based helpers
`detect_domains_from_text` and `check_domain_exclusions` are deterministic
lookups in static keyword tables; their per-paper results enter
`classify_paper_domain` only through the values modelled below as
explicit arguments (`detected`, `shouldExclude`, `exclusionReasons`), and
every theorem proved about the classifier holds for all values of those
arguments.  The external classification capability is an
`Except Unit AIClass` outcome as for the relevance filter.
-/

/-- The `ResearchDomain` enumeration. -/
inductive ResearchDomain where
  | physics | engineering | computerScience | mathematics | chemistry
  | materialsScience | biology | medicine | neuroscience | psychology
  | economics | environmentalScience | astronomy | geosciences | statistics
deriving DecidableEq, Repr

/-- The `value` string of each enum member. -/
def domainValue : ResearchDomain → Text
  | .physics => txt "physics"
  | .engineering => txt "engineering"
  | .computerScience => txt "computer_science"
  | .mathematics => txt "mathematics"
  | .chemistry => txt "chemistry"
  | .materialsScience => txt "materials_science"
  | .biology => txt "biology"
  | .medicine => txt "medicine"
  | .neuroscience => txt "neuroscience"
  | .psychology => txt "psychology"
  | .economics => txt "economics"
  | .environmentalScience => txt "environmental_science"
  | .astronomy => txt "astronomy"
  | .geosciences => txt "geosciences"
  | .statistics => txt "statistics"

/-- All enum members, for the `ResearchDomain(name)` constructor lookup. -/
def allDomains : List ResearchDomain :=
  [.physics, .engineering, .computerScience, .mathematics, .chemistry,
   .materialsScience, .biology, .medicine, .neuroscience, .psychology,
   .economics, .environmentalScience, .astronomy, .geosciences, .statistics]

/-- Model of `ResearchDomain(name)`: `none` models the `ValueError`. -/
def domainOfText (t : Text) : Option ResearchDomain :=
  allDomains.find? (fun d => decide (domainValue d = t))

/-- The `DomainContext` record. -/
structure DomainContext where
  primaryDomains : List ResearchDomain
  excludeDomains : List ResearchDomain
  domainWeights : List (ResearchDomain × ℚ)
  focusKeywords : List Text
  excludeKeywords : List Text
deriving DecidableEq, Repr

/-- The `DomainClassificationResult` record. -/
structure DomainClassificationResult where
  paperId : Text
  detectedDomains : List ResearchDomain
  domainScores : List (ResearchDomain × ℚ)
  isRelevantToContext : Bool
  relevanceScore : ℚ
  exclusionReasons : List Text
deriving DecidableEq, Repr

/-- Parsed JSON object returned by the external classification capability;
absent fields model absent JSON keys. -/
structure AIClass where
  primaryDomain : Option Text
  secondaryDomains : List Text
  domainScores : List (Text × ℚ)
  isRelevant : Option Bool
  overallRelevance : Option ℚ
  exclusionReasons : List Text
deriving DecidableEq, Repr

/-- The fallback (`except`) branch of `classify_paper_domain`.  The local
`primary_domain` of the source is computed but never stored in the
result, so it does not appear here. -/
def classifyPaperDomainFallback (detected : List ResearchDomain) (shouldExclude : Bool)
    (exclusionReasons : List Text) (ctx : DomainContext) (paperId : Text) :
    DomainClassificationResult :=
  let isRel := !shouldExclude && detected.any (fun d => decide (d ∈ ctx.primaryDomains))
  { paperId := paperId
    detectedDomains := detected
    domainScores := detected.map (fun d => (d, (1 : ℚ)))
    isRelevantToContext := isRel
    relevanceScore := if isRel then 7 / 10 else 1 / 10
    exclusionReasons := exclusionReasons }

/-- The `try` branch of `classify_paper_domain`; returns `none` when the
`ResearchDomain(...)` conversion of the primary domain raises, which the
enclosing `except` turns into the fallback. -/
def classifyPaperDomainTry (detected : List ResearchDomain) (shouldExclude : Bool)
    (exclusionReasons : List Text) (ai : AIClass) (paperId : Text) :
    Option DomainClassificationResult :=
  let primaryName := ai.primaryDomain.getD
    (match detected with
     | [] => txt "computer_science"
     | d :: _ => domainValue d)
  match domainOfText primaryName with
  | none => none
  | some _ =>
    let allD := ai.secondaryDomains.foldl
      (fun acc name =>
        match domainOfText name with
        | none => acc
        | some d => if d ∈ acc then acc else acc ++ [d])
      detected
    let dscores := ai.domainScores.foldl
      (fun acc p =>
        match domainOfText p.1 with
        | none => acc
        | some d =>
          if acc.any (fun q => decide (q.1 = d)) then
            acc.map (fun q => if q.1 = d then (d, p.2) else q)
          else acc ++ [(d, p.2)])
      []
    let isRel := ai.isRelevant.getD true && !shouldExclude
    some
      { paperId := paperId
        detectedDomains := allD
        domainScores := dscores
        isRelevantToContext := if shouldExclude then false else isRel
        relevanceScore := if shouldExclude then 0 else ai.overallRelevance.getD (1 / 2)
        exclusionReasons :=
          if shouldExclude then exclusionReasons ++ ai.exclusionReasons
          else exclusionReasons }

/-- Model of `DomainClassifier.classify_paper_domain`. -/
def classifyPaperDomain (detected : List ResearchDomain) (shouldExclude : Bool)
    (exclusionReasons : List Text) (aiOutcome : Except Unit AIClass)
    (ctx : DomainContext) (paperId : Text) : DomainClassificationResult :=
  match aiOutcome with
  | .error _ =>
    classifyPaperDomainFallback detected shouldExclude exclusionReasons ctx paperId
  | .ok ai =>
    match classifyPaperDomainTry detected shouldExclude exclusionReasons ai paperId with
    | some r => r
    | none => classifyPaperDomainFallback detected shouldExclude exclusionReasons ctx paperId

/-- Per-paper inputs of `classify_paper_domain` that come from the
rule-based helpers and from the external capability. -/
structure DomainOracle where
  detected : List ResearchDomain
  shouldExclude : Bool
  exclusionReasons : List Text
  ai : Except Unit AIClass

/-- Model of the `classify_papers_by_domain` convenience function: parse
the papers, classify each, and keep only the classifications judged
relevant to the context. -/
def classifyPapersByDomain (pyHash : Text → ℤ) (oracle : ParsedPaper → DomainOracle)
    (ctx : DomainContext) (papersText : Text) : List DomainClassificationResult :=
  (parsePapersFromText pyHash papersText).filterMap (fun p =>
    let o := oracle p
    let c := classifyPaperDomain o.detected o.shouldExclude o.exclusionReasons o.ai ctx p.paperId
    if c.isRelevantToContext then some c else none)

/-!
The domain-filtering step of `EnhancedArxivSearch.enhanced_search`
(lines 263-304 of `enhanced_arxiv.py`).  The `[DOMAIN: ...]` annotation
appended to each retained block renders domain names and a `.2f` score;
its text plays no role in which blocks are retained, so it is the
parameter `domainInfoOf`.
-/

/-- Indexed loop over the paper blocks of the combined text (the index
counts every `split('\n\n')` block, as `enumerate` does).  The paper id is
recomputed here from the raw first line of the block
(`block.split('\n')[0]`). -/
def domainFilterBlocks (pyHash : Text → ℤ)
    (domainInfoOf : DomainClassificationResult → Text)
    (relevantIds : List Text) (domainResults : List DomainClassificationResult) :
    ℕ → List Text → List Text
  | _, [] => []
  | i, block :: bs =>
    if (stripT block).isEmpty then
      domainFilterBlocks pyHash domainInfoOf relevantIds domainResults (i + 1) bs
    else
      let pid := mkPaperId i ((pyHash (block.takeWhile (fun ch => ch ≠ '\n'))).emod 10000)
      if pid ∈ relevantIds then
        (match domainResults.find? (fun r => decide (r.paperId = pid)) with
         | some r => block ++ domainInfoOf r
         | none => block) ::
        domainFilterBlocks pyHash domainInfoOf relevantIds domainResults (i + 1) bs
      else domainFilterBlocks pyHash domainInfoOf relevantIds domainResults (i + 1) bs

/-- The domain-filtering step of `enhanced_search`: when classifications
exist, keep exactly the blocks whose recomputed id is among the ids the
classifier judged relevant. -/
def domainFilterStep (pyHash : Text → ℤ)
    (domainInfoOf : DomainClassificationResult → Text) (combined : Text)
    (domainResults : List DomainClassificationResult) : Text :=
  if domainResults.isEmpty then combined
  else
    let relevantIds := (domainResults.filter (fun r => r.isRelevantToContext)).map
      (fun r => r.paperId)
    joinNN (domainFilterBlocks pyHash domainInfoOf relevantIds domainResults 0
      (splitNN combined))

/-!
Synthesis report validator (`synthesis_tool.py`).  The guardrail closes
over the module constant `_INSTRUCTIONS` only through
`_main_synthesis_target_range`; the instructions text is therefore a
parameter, and the theorems below hold for every instructions text
(including the real one, whose parse yields the (220, 300) range).
-/

/-- The four required section names. -/
inductive SecName where
  | mainS | keyT | hyp | refs
deriving DecidableEq, Repr

/-- Section heading recognition: the stripped line must equal one of the
four dictionary keys of `_extract_sections`. -/
def headingOf (stripped : Text) : Option SecName :=
  if stripped = txt "Main synthesis" then some .mainS
  else if stripped = txt "Key tensions & gaps" then some .keyT
  else if stripped = txt "Hypotheses & minimal tests" then some .hyp
  else if stripped = txt "References" then some .refs
  else none

/-- Accumulated section bodies. -/
structure Sections where
  mainSynthesis : Text
  keyTensions : Text
  hypotheses : Text
  references : Text
deriving DecidableEq, Repr

/-- Line loop of `_extract_sections`: a heading line switches the current
section; any other line is appended (plus a newline) to the current
section, or dropped before the first heading. -/
def extractSectionsAux : List Text → Option SecName → Sections → Sections
  | [], _, s => s
  | line :: rest, cur, s =>
    match headingOf (stripT line) with
    | some name => extractSectionsAux rest (some name) s
    | none =>
      match cur with
      | none => extractSectionsAux rest cur s
      | some .mainS =>
        extractSectionsAux rest cur { s with mainSynthesis := s.mainSynthesis ++ line ++ ['\n'] }
      | some .keyT =>
        extractSectionsAux rest cur { s with keyTensions := s.keyTensions ++ line ++ ['\n'] }
      | some .hyp =>
        extractSectionsAux rest cur { s with hypotheses := s.hypotheses ++ line ++ ['\n'] }
      | some .refs =>
        extractSectionsAux rest cur { s with references := s.references ++ line ++ ['\n'] }

/-- Model of `_extract_sections` (bodies are stripped at the end). -/
def extractSections (t : Text) : Sections :=
  let s := extractSectionsAux (splitlinesNL t) none ⟨[], [], [], []⟩
  { mainSynthesis := stripT s.mainSynthesis
    keyTensions := stripT s.keyTensions
    hypotheses := stripT s.hypotheses
    references := stripT s.references }

/-- Model of `_word_count` (the inner `w.strip()` test is redundant since
`split()` yields no empty or all-whitespace words). -/
def wordCountT (t : Text) : ℕ := (wordsOf t).length

/-- Model of `_normalize_citation_key`: strip, then collapse each internal
whitespace run to a single space; equivalently, the space-join of the
whitespace-split words. -/
def normalizeCitationKey (key : Text) : Text := joinSep [' '] (wordsOf key)

/-- Model of `_strip_reference_list_marker`. -/
def stripRefListMarker (line : Text) : Text :=
  let s := lstripT line
  match s with
  | [] => []
  | c :: rest =>
    if c = '-' ∨ c = '•' then lstripT rest
    else
      let ds := s.takeWhile Char.isDigit
      if ds.isEmpty then s
      else
        match s.drop ds.length with
        | [] => s
        | p :: rest2 =>
          if p = '.' ∨ p = ')' then
            match rest2 with
            | [] => s
            | w :: _ => if pyWs w then lstripT rest2 else s
          else s

/-- Model of `_parse_references`. -/
def parseReferences (block : Text) : List Text :=
  (splitlinesNL block).filterMap (fun line =>
    if (stripT line).isEmpty then none
    else
      let cleaned := stripRefListMarker line
      if cleaned.isEmpty then none
      else
        let title0 := match breakSub (txt "—") cleaned with
                      | some pr => stripT pr.1
                      | none => stripT cleaned
        let title := normalizeCitationKey title0
        if title.isEmpty then none else some title)

/-- Scanning loop of `_find_inline_citations`; the fuel is the remaining
text length, which bounds the number of iterations because every
iteration consumes at least the bracket pair. -/
def findInlineCitationsAux : ℕ → Text → List Text
  | 0, _ => []
  | fuel + 1, t =>
    match breakSub (txt "[") t with
    | none => []
    | some pr1 =>
      match breakSub (txt "]") pr1.2 with
      | none => []
      | some pr2 =>
        let afterRB := pr2.2
        let j := afterRB.dropWhile pyWs
        if startsWithT j (txt "(") then findInlineCitationsAux fuel afterRB
        else
          let content := stripT pr2.1
          if content.isEmpty then findInlineCitationsAux fuel afterRB
          else
            ((splitChar ';' content).filterMap (fun part =>
              let key := normalizeCitationKey part
              if key.isEmpty then none else some key)) ++
            findInlineCitationsAux fuel afterRB

/-- Model of `_find_inline_citations`. -/
def findInlineCitations (mainText : Text) : List Text :=
  findInlineCitationsAux mainText.length mainText

/-- Value of a pure digit string (used by the target-range regex groups,
where both groups are 2-4 plain digits). -/
def digitsToNat (t : Text) : ℕ :=
  t.foldl (fun acc c => 10 * acc + (c.toNat - '0'.toNat)) 0

/-- The `[–-]` character class of the target-range regex. -/
def isRangeDash (c : Char) : Bool := c = '–' || c = '-'

/-- Match of `(\d{2,4})\s*[–-]\s*(\d{2,4})` anchored at the start of `t`,
trying the greedy group-1 lengths 4, 3, 2 in backtracking order. -/
def rangeMatchAt (t : Text) : Option (ℕ × ℕ) :=
  let tryK := fun (k : ℕ) =>
    let g1 := t.take k
    if g1.length = k ∧ g1.all Char.isDigit then
      match (t.drop k).dropWhile pyWs with
      | [] => none
      | c :: rest2 =>
        if isRangeDash c then
          let g2 := ((rest2.dropWhile pyWs).takeWhile Char.isDigit).take 4
          if 2 ≤ g2.length then some (digitsToNat g1, digitsToNat g2) else none
        else none
    else none
  ((tryK 4).orElse (fun _ => tryK 3)).orElse (fun _ => tryK 2)

/-- Model of `range_re.search(line)`: the leftmost position with a match. -/
def rangeSearch : Text → Option (ℕ × ℕ)
  | [] => none
  | c :: rest =>
    match rangeMatchAt (c :: rest) with
    | some r => some r
    | none => rangeSearch rest

/-- Line loop of `_main_synthesis_target_range`. -/
def mainSynthesisTargetRangeAux : List Text → ℕ × ℕ
  | [] => (220, 300)
  | line :: rest =>
    if containsSub (txt "Main synthesis") line then
      match rangeSearch line with
      | some lohi =>
        if 0 < lohi.1 ∧ lohi.1 < lohi.2 then lohi
        else mainSynthesisTargetRangeAux rest
      | none => mainSynthesisTargetRangeAux rest
    else mainSynthesisTargetRangeAux rest

/-- Model of `_main_synthesis_target_range`. -/
def mainSynthesisTargetRange (instructions : Text) : ℕ × ℕ :=
  mainSynthesisTargetRangeAux (splitlinesNL instructions)

/-- The `output_info` payload of the guardrail result. -/
structure GuardrailInfo where
  issues : List Text
  notes : List Text
  wordCount : ℕ
  targetRange : ℕ × ℕ
deriving DecidableEq, Repr

/-- The `GuardrailFunctionOutput` of the guardrail. -/
structure GuardrailOutput where
  outputInfo : GuardrailInfo
  tripwireTriggered : Bool
deriving DecidableEq, Repr

/-- The apostrophe character (kept out of string literals). -/
def apos : Char := Char.ofNat 39

/-- Issue text for unmatched citations. -/
def unmatchedCitationsIssue (unmatched : List Text) : Text :=
  txt "Inline citations not found in References: " ++ joinSep (txt ", ") unmatched

/-- Model of `synthesis_output_guardrail`.  Every check is a total
function of the output text, so the embedded guardrail is total: it never
raises, always returns the result record, and sets
`tripwire_triggered=False` unconditionally. -/
def synthesisOutputGuardrail (instructions : Text) (output : Text) : GuardrailOutput :=
  let sections := extractSections output
  let missing := ([(txt "Main synthesis", sections.mainSynthesis),
                   (txt "Key tensions & gaps", sections.keyTensions),
                   (txt "Hypotheses & minimal tests", sections.hypotheses),
                   (txt "References", sections.references)]).filterMap
    (fun p => if p.2.isEmpty then some p.1 else none)
  let issues1 := if missing.isEmpty then []
    else [txt "Missing sections: " ++ joinSep (txt ", ") missing]
  let lohi := mainSynthesisTargetRange instructions
  let mainWc := wordCountT sections.mainSynthesis
  let issues2 := if mainWc < lohi.1 then
      [txt "Main synthesis length " ++ natToText mainWc ++ txt " words (below target " ++
       natToText lohi.1 ++ txt "–" ++ natToText lohi.2 ++ txt ")"]
    else []
  let notes2 := if ¬ mainWc < lohi.1 ∧ lohi.2 < mainWc then
      [txt "Main synthesis length " ++ natToText mainWc ++ txt " words (above target " ++
       natToText lohi.1 ++ txt "–" ++ natToText lohi.2 ++
       txt "; permitted when needed for correctness)"]
    else []
  let hypBullets := (splitlinesNL sections.hypotheses).filter
    (fun ln => startsWithT (stripT ln) (txt "-") || startsWithT (stripT ln) (txt "•"))
  let issues3 := if 2 < hypBullets.length then
      [txt "Too many hypotheses (" ++ natToText hypBullets.length ++ txt " > 2)"]
    else []
  let issues4 := if containsSub (txt "~") sections.mainSynthesis then
      [txt "Use ≈ for approximate values; " ++ [apos, '~', apos] ++ txt " found"]
    else []
  let refKeys := parseReferences sections.references
  let cites := findInlineCitations sections.mainSynthesis
  let unmatched := cites.filter (fun c => c ∉ refKeys)
  let issues5 := if ¬ cites.isEmpty ∧ ¬ refKeys.isEmpty ∧ ¬ unmatched.isEmpty then
      [unmatchedCitationsIssue unmatched]
    else []
  { outputInfo :=
      { issues := issues1 ++ issues2 ++ issues3 ++ issues4 ++ issues5
        notes := notes2
        wordCount := mainWc
        targetRange := lohi }
    tripwireTriggered := false }

/-!
Fan-out search (`EnhancedArxivSearch._execute_search_queries`).  The
fetcher `_fetch_arxiv_original` is the external collaborator: it is a
function from query to either a text blob or a raised exception, modelled
as `Except Unit Text`.  Courtesy delays, console prints, and the
wall-clock `total_execution_time` metadata entry carry no data into the
result and are not modelled.  `papers_per_query` is a dict in the source;
it is modelled as the association list of its insertions (duplicate
queries overwrite in Python, which no claim observes).
-/

/-- Fan-out metadata. -/
structure SearchMetadata where
  queriesExecuted : List Text
  papersPerQuery : List (Text × ℕ)
  failedQueries : List Text
deriving DecidableEq, Repr

/-- Paper count of one query result:
`len([p for p in result.split('\n\n') if p.strip()])`. -/
def countPaperBlocks (t : Text) : ℕ :=
  ((splitNN t).filter (fun p => !(stripT p).isEmpty)).length

/-- A query outcome the loop treats as a soft failure: a raised exception,
an empty result, the `"No papers found."` marker, or an `"Error"` prefix. -/
def isSoftFail (outcome : Except Unit Text) : Bool :=
  match outcome with
  | .error _ => true
  | .ok t => t.isEmpty || decide (t = txt "No papers found.") || startsWithT t (txt "Error")

/-- Query loop of `_execute_search_queries`. -/
def executeSearchQueries (fetch : Text → Except Unit Text) :
    List Text → List Text × SearchMetadata
  | [] => ([], ⟨[], [], []⟩)
  | q :: qs =>
    let rest := executeSearchQueries fetch qs
    match fetch q with
    | .error _ => (rest.1, { rest.2 with failedQueries := q :: rest.2.failedQueries })
    | .ok result =>
      if ¬ result.isEmpty ∧ result ≠ txt "No papers found." ∧
         ¬ startsWithT result (txt "Error") then
        (result :: rest.1,
         { queriesExecuted := q :: rest.2.queriesExecuted
           papersPerQuery := (q, countPaperBlocks result) :: rest.2.papersPerQuery
           failedQueries := rest.2.failedQueries })
      else (rest.1, { rest.2 with failedQueries := q :: rest.2.failedQueries })

/-!
The arXiv fetcher (`arxiv._fetch`).  The network, the URL construction,
and the feed parsing are the external collaborator: `entriesFor` maps an
attempt query string and a `start` offset to the entry list the feed
yields there (the model covers the non-raising executions; raised or
`"Error..."` outcomes are covered at the orchestrator level through the
`Except` fetcher of `executeSearchQueries`).  `_build_search_query`, the
deterministic fielded-query synthesiser, enters only through the value of
the primary attempt string and is the parameter `buildQuery`.
-/

/-- One feed entry as consumed by `_fetch`. -/
structure ArxivEntry where
  title : Text
  published : Text
  authorsStr : Text
  summary : Text
  link : Text
  pdf : Text
deriving DecidableEq, Repr

/-- Year string of an entry: `published[:4] if len(published) >= 4 else "N/A"`. -/
def entryYear (e : ArxivEntry) : Text :=
  if 4 ≤ e.published.length then e.published.take 4 else txt "N/A"

/-- Formatted text block of one entry. -/
def formatArxivEntry (e : ArxivEntry) : Text :=
  e.title ++ txt " (" ++ entryYear e ++ txt ") by " ++ e.authorsStr ++
  txt "\nAbstract: " ++ e.summary ++ txt "\nURL: " ++ e.link ++
  (if e.pdf.isEmpty then [] else txt "\nPDF: " ++ e.pdf)

/-- The optional minimum-year filter (`ARXIV_MIN_YEAR`, default 0 =
disabled); an unparseable year is kept. -/
def yearFilteredOut (minYear : ℕ) (e : ArxivEntry) : Bool :=
  if minYear ≠ 0 ∧ entryYear e ≠ txt "N/A" then
    match parsePyInt (entryYear e) with
    | some y => decide (y < (minYear : ℤ))
    | none => false
  else false

/-- Entry-collection loop of `_fetch`: append formatted entries that pass
the year filter, stopping once `max_results` parts are collected. -/
def collectEntries (maxResults minYear : ℕ) : List Text → List ArxivEntry → List Text
  | collected, [] => collected
  | collected, e :: es =>
    if yearFilteredOut minYear e then collectEntries maxResults minYear collected es
    else
      let c2 := collected ++ [formatArxivEntry e]
      if maxResults ≤ c2.length then c2
      else collectEntries maxResults minYear c2 es

/-- Paging/attempt loop of `_fetch` over
(collected, start, pages_tried, attempt_index); `max_pages` is the
source's constant 5.  An empty page at `start == 0` on attempt 0 with a
fallback attempt available switches to the fallback (resetting the page
count; `start` is still 0); any other empty page sets `last_batch_empty`
and exits.  The fuel bounds the iteration count: at most one switch plus
five pages per attempt occur, so the constant fuel 12 used by
`fetchArxiv` is never exhausted. -/
def fetchLoop (entriesFor : Text → ℕ → List ArxivEntry) (attempts : List Text)
    (maxResults minYear pageSize : ℕ) :
    ℕ → List Text → ℕ → ℕ → ℕ → List Text
  | 0, collected, _, _, _ => collected
  | fuel + 1, collected, start, pagesTried, attemptIndex =>
    if maxResults ≤ collected.length ∨ 5 ≤ pagesTried then collected
    else
      let entries := entriesFor (attempts.getD attemptIndex []) start
      if entries.isEmpty then
        if start = 0 ∧ attemptIndex = 0 ∧ 1 < attempts.length then
          fetchLoop entriesFor attempts maxResults minYear pageSize fuel collected start 0 1
        else collected
      else
        fetchLoop entriesFor attempts maxResults minYear pageSize fuel
          (collectEntries maxResults minYear collected entries)
          (start + pageSize) (pagesTried + 1) attemptIndex

/-- Model of `arxiv._fetch` for a non-URL query: build the attempt list
(primary fielded query, then the broad `all:` form when distinct), run the
paging loop, and join the collected parts. -/
def fetchArxiv (entriesFor : Text → ℕ → List ArxivEntry) (buildQuery : Text → Text)
    (q : Text) (maxResults minYear : ℕ) : Text :=
  let pageSize := max 10 (min 50 (maxResults * 2))
  let attempts :=
    if startsWithT q (txt "http") then [q]
    else
      let primary := buildQuery q
      let fallback := txt "all:" ++ q
      if fallback ≠ primary then [primary, fallback] else [primary]
  let parts := fetchLoop entriesFor attempts maxResults minYear pageSize 12 [] 0 0 0
  if parts.isEmpty then txt "No papers found."
  else joinNN (parts.take maxResults)

/-- A report whose Main synthesis cites `[Foo Study, 2024]` and whose
References section is present but empty. -/
def reportFooNoRefs : Text :=
  txt "Main synthesis\nAlpha result [Foo Study, 2024] end.\nKey tensions & gaps\n- t\nHypotheses & minimal tests\n- h\nReferences\n"

/-- The same report with one (non-matching) reference entry. -/
def reportFooWithRefs : Text :=
  txt "Main synthesis\nAlpha result [Foo Study, 2024] end.\nKey tensions & gaps\n- t\nHypotheses & minimal tests\n- h\nReferences\nBar Study, 2023 — http://b"

/-- The combined papers text of the C1 analysis: a single well-formed
paper block whose title line carries the standard `(Year) by Authors`
suffix. -/
def quantumCombined : Text :=
  txt "Quantum Entanglement (2023) by Alice\nAbstract: entanglement studies\nURL: http://e"

/-- A domain context selecting physics. -/
def ctxPhysics : DomainContext := ⟨[.physics], [], [(.physics, 1)], [], []⟩

/-- An oracle whose rule-based detection finds physics, excludes nothing,
and whose external call fails, so the classifier takes its rule-based
fallback and judges every paper relevant to the physics context. -/
def oraclePhysics : ParsedPaper → DomainOracle :=
  fun _ => ⟨[.physics], false, [], Except.error ()⟩

/-- Concrete feed entries for the C7 analysis. -/
def entryA1 : ArxivEntry := ⟨txt "A1", txt "2023-01-01", txt "A", txt "s", txt "l", []⟩

/-- Second concrete feed entry. -/
def entryB2 : ArxivEntry := ⟨txt "B2", txt "2024-01-01", txt "B", txt "s", txt "l", []⟩

/-- Feed behaviour for the C7 analysis: the first query's primary form has
one entry, the second query's primary form has none anywhere, and the
second query's broad `all:` form has one entry. -/
def c7Entries : Text → ℕ → List ArxivEntry := fun q start =>
  if q = txt "PRIMARY-q1" ∧ start = 0 then [entryA1]
  else if q = txt "all:q2" ∧ start = 0 then [entryB2]
  else []

/-- Fielded-query synthesis stand-in for the C7 analysis: every query gets
a primary form distinct from its broad `all:` form. -/
def c7Build : Text → Text := fun q => txt "PRIMARY-" ++ q

/-- Normalised dedup key of a block, as `_deduplicate_papers` computes it
(the key of a block depends only on the block's stripped text). -/
def keyB (b : Text) : Text := cleanTitleKey (firstLineOfBlock b)

/-!
Infrastructure lemmas about the text operations: blocks produced by
`splitNN` contain no blank-line separator, `splitNN` inverts `joinNN` on
separator-free blocks that do not end in a newline, and `stripT` is
idempotent with non-whitespace end characters.
-/

/-- Two-step list induction matching the recursion of `splitNN` and `noNN`. -/
theorem twoStepInduction {motive : Text → Prop} (h0 : motive []) (h1 : ∀ c, motive [c])
    (h2 : ∀ c d rest, motive rest → motive (d :: rest) → motive (c :: d :: rest)) :
    ∀ t, motive t := by
  have key : ∀ n t, t.length ≤ n → motive t := by
    intro n
    induction n with
    | zero => intro t ht; cases t with
      | nil => exact h0
      | cons c r => simp at ht
    | succ m ih =>
      intro t ht
      match t with
      | [] => exact h0
      | [c] => exact h1 c
      | c :: d :: rest =>
        simp only [List.length_cons] at ht
        exact h2 c d rest (ih rest (by omega)) (ih (d :: rest) (by simp only [List.length_cons]; omega))
  exact fun t => key t.length t le_rfl

theorem noNN_cons {c : Char} {t : Text} (h : noNN (c :: t) = true) : noNN t = true := by
  cases t with
  | nil => rfl
  | cons d rest => simp only [noNN, Bool.and_eq_true] at h; exact h.2

theorem noNN_of_append_left {x b : Text} (h : noNN (x ++ b) = true) : noNN x = true := by
  induction x using twoStepInduction with
  | h0 => rfl
  | h1 c => rfl
  | h2 c d rest ih1 ih2 =>
    simp only [List.cons_append, noNN, Bool.and_eq_true] at h ⊢
    exact ⟨h.1, ih2 (by simpa using h.2)⟩

theorem noNN_of_append_right {a x : Text} (h : noNN (a ++ x) = true) : noNN x = true := by
  induction a with
  | nil => simpa using h
  | cons c rest ih => exact ih (noNN_cons (by simpa using h))

theorem noNN_stripT {t : Text} (h : noNN t = true) : noNN (stripT t) = true := by
  obtain ⟨a, ha⟩ : ∃ a, a ++ lstripT t = t := List.dropWhile_suffix pyWs
  have hu : noNN (lstripT t) = true := noNN_of_append_right (ha ▸ h)
  obtain ⟨b', hb⟩ : ∃ b', b' ++ (lstripT t).reverse.dropWhile pyWs = (lstripT t).reverse :=
    List.dropWhile_suffix pyWs
  have : stripT t ++ b'.reverse = lstripT t := by
    have := congrArg List.reverse hb
    simpa [stripT, rstripT, List.rdropWhile] using this
  exact noNN_of_append_left (this ▸ hu)

theorem splitNN_ne_nil (t : Text) : splitNN t ≠ [] := by
  cases t with
  | nil => simp [splitNN]
  | cons c rest =>
    cases rest with
    | nil => simp [splitNN]
    | cons d r =>
      by_cases hcd : c = '\n' ∧ d = '\n'
      · rw [splitNN, if_pos hcd]; simp
      · rw [splitNN, if_neg hcd]
        cases hs : splitNN (d :: r) <;> simp

theorem splitNN_head_shape {x : Char} {r a : Text} {b : List Text}
    (h : splitNN (x :: r) = a :: b) : a = [] ∨ ∃ a2, a = x :: a2 := by
  cases r with
  | nil => rw [splitNN] at h; injection h with h1 _; exact Or.inr ⟨[], h1.symm⟩
  | cons y r2 =>
    by_cases hxy : x = '\n' ∧ y = '\n'
    · rw [splitNN, if_pos hxy] at h; injection h with h1 _; exact Or.inl h1.symm
    · rw [splitNN, if_neg hxy] at h
      cases hs : splitNN (y :: r2) with
      | nil => exact absurd hs (splitNN_ne_nil _)
      | cons p q =>
        rw [hs] at h; injection h with h1 _; exact Or.inr ⟨p, h1.symm⟩

theorem noNN_of_mem_splitNN {t p : Text} (h : p ∈ splitNN t) : noNN p = true := by
  induction t using twoStepInduction generalizing p with
  | h0 => simp [splitNN] at h; simp [h, noNN]
  | h1 c => simp [splitNN] at h; simp [h, noNN]
  | h2 c d rest ih1 ih2 =>
    by_cases hcd : c = '\n' ∧ d = '\n'
    · rw [splitNN, if_pos hcd] at h
      rcases List.mem_cons.mp h with h2 | h2
      · simp [h2, noNN]
      · exact ih1 h2
    · rw [splitNN, if_neg hcd] at h
      cases hs : splitNN (d :: rest) with
      | nil => exact absurd hs (splitNN_ne_nil _)
      | cons a b =>
        rw [hs] at h
        rcases List.mem_cons.mp h with h2 | h2
        · subst h2
          have hna : noNN a = true := ih2 (hs ▸ List.mem_cons_self a b)
          rcases splitNN_head_shape hs with ha | ⟨a2, ha⟩
          · simp [ha, noNN]
          · subst ha
            simp only [noNN, Bool.and_eq_true] at hna ⊢
            refine ⟨?_, ?_⟩
            · simp only [Bool.not_eq_eq_eq_not, Bool.not_true, Bool.and_eq_false_iff]
              rcases not_and_or.mp hcd with hc | hd
              · exact Or.inl (by simpa using hc)
              · exact Or.inr (by simpa using hd)
            · exact hna
        · exact ih2 (hs ▸ List.mem_cons_of_mem a h2)

theorem splitNN_single {p : Text} (h : noNN p = true) : splitNN p = [p] := by
  induction p using twoStepInduction with
  | h0 => rfl
  | h1 c => rfl
  | h2 c d rest ih1 ih2 =>
    simp only [noNN, Bool.and_eq_true] at h
    have hcd : ¬ (c = '\n' ∧ d = '\n') := by
      intro hx
      simp [hx.1, hx.2] at h
    rw [splitNN, if_neg hcd, ih2 h.2]

theorem endsNL_cons_cons {c d : Char} {t : Text} :
    endsNL (c :: d :: t) = endsNL (d :: t) := by
  simp [endsNL, List.getLast?]

theorem splitNN_eq_cons_cons (c d : Char) (r : Text) :
    splitNN (c :: d :: r) =
      if c = '\n' ∧ d = '\n' then [] :: splitNN r
      else
        match splitNN (d :: r) with
        | [] => [[c]]
        | h :: t => (c :: h) :: t := by
  rw [splitNN]

theorem splitNN_append_sep {p rest : Text} (h : noNN p = true) (he : endsNL p = false) :
    splitNN (p ++ '\n' :: '\n' :: rest) = p :: splitNN rest := by
  have hsep : splitNN ('\n' :: '\n' :: rest) = [] :: splitNN rest := by
    rw [splitNN_eq_cons_cons, if_pos ⟨rfl, rfl⟩]
  induction p using twoStepInduction with
  | h0 => simpa using hsep
  | h1 c =>
    have hc : ¬ c = '\n' := by
      simp [endsNL, List.getLast?] at he
      exact he
    have hcd : ¬ (c = '\n' ∧ '\n' = '\n') := fun hx => hc hx.1
    rw [List.cons_append, List.nil_append, splitNN_eq_cons_cons, if_neg hcd, hsep]
  | h2 c d p2 ih1 ih2 =>
    simp only [noNN, Bool.and_eq_true] at h
    have hcd : ¬ (c = '\n' ∧ d = '\n') := by
      intro hx
      simp [hx.1, hx.2] at h
    have he2 : endsNL (d :: p2) = false := by rwa [endsNL_cons_cons] at he
    have ihr := ih2 h.2 he2
    rw [show (c :: d :: p2) ++ '\n' :: '\n' :: rest
          = c :: ((d :: p2) ++ '\n' :: '\n' :: rest) from rfl]
    rw [show (d :: p2) ++ '\n' :: '\n' :: rest
          = d :: (p2 ++ '\n' :: '\n' :: rest) from rfl] at ihr ⊢
    rw [splitNN_eq_cons_cons, if_neg hcd, ihr]

theorem splitNN_joinNN {bs : List Text} (hne : bs ≠ [])
    (hb : ∀ b ∈ bs, noNN b = true ∧ endsNL b = false) :
    splitNN (joinNN bs) = bs := by
  induction bs with
  | nil => exact absurd rfl hne
  | cons b bs2 ih =>
    cases bs2 with
    | nil =>
      have : joinNN [b] = b := by simp [joinNN]
      rw [this, splitNN_single (hb b (List.mem_cons_self b [])).1]
    | cons b2 bs3 =>
      have : joinNN (b :: b2 :: bs3) = b ++ '\n' :: '\n' :: joinNN (b2 :: bs3) := by
        simp [joinNN]
      rw [this, splitNN_append_sep (hb b (List.mem_cons_self _ _)).1
        (hb b (List.mem_cons_self _ _)).2]
      rw [ih (by simp) (fun x hx => hb x (List.mem_cons_of_mem b hx))]

theorem rstripT_append (u : Text) : ∃ b, rstripT u ++ b = u := by
  obtain ⟨b2, hb⟩ : ∃ b2, b2 ++ u.reverse.dropWhile pyWs = u.reverse :=
    List.dropWhile_suffix pyWs
  refine ⟨b2.reverse, ?_⟩
  have := congrArg List.reverse hb
  simpa [rstripT, List.rdropWhile] using this

theorem pyWs_head?_lstripT {t : Text} {c : Char} (h : (lstripT t).head? = some c) :
    pyWs c = false := by
  have hne : t.dropWhile pyWs ≠ [] := by
    intro hx
    rw [lstripT, hx] at h
    exact Option.noConfusion h
  have h2 : ¬ pyWs ((t.dropWhile pyWs).head hne) = true := by
    simpa using List.head_dropWhile_not pyWs t hne
  have h3 : (t.dropWhile pyWs).head? = some ((t.dropWhile pyWs).head hne) :=
    List.head?_eq_head _
  rw [lstripT, h3] at h
  have hc := Option.some_inj.mp h
  subst hc
  simpa using h2

theorem pyWs_head?_stripT {t : Text} {c : Char} (h : (stripT t).head? = some c) :
    pyWs c = false := by
  obtain ⟨b, hb⟩ := rstripT_append (lstripT t)
  have hne : stripT t ≠ [] := by
    intro hx
    rw [hx] at h
    exact Option.noConfusion h
  have hne2 : rstripT (lstripT t) ≠ [] := hne
  apply pyWs_head?_lstripT (t := t)
  rw [← hb, List.head?_append_of_ne_nil _ hne2]
  exact h

theorem pyWs_getLast?_rstripT {u : Text} {c : Char} (h : (rstripT u).getLast? = some c) :
    pyWs c = false := by
  have hne : List.rdropWhile pyWs u ≠ [] := by
    intro hx
    rw [rstripT, hx] at h
    exact Option.noConfusion h
  have h2 : ¬ pyWs ((List.rdropWhile pyWs u).getLast hne) = true := by
    simpa using List.rdropWhile_last_not pyWs u hne
  rw [rstripT, List.getLast?_eq_getLast_of_ne_nil hne] at h
  have hc := Option.some_inj.mp h
  subst hc
  simpa using h2

theorem pyWs_getLast?_stripT {t : Text} {c : Char} (h : (stripT t).getLast? = some c) :
    pyWs c = false :=
  pyWs_getLast?_rstripT (u := lstripT t) h

theorem endsNL_stripT (t : Text) : endsNL (stripT t) = false := by
  rw [endsNL]
  cases hl : (stripT t).getLast? with
  | none => rfl
  | some c =>
    have h1 := pyWs_getLast?_stripT hl
    have h2 : c ≠ '\n' := by
      intro hx
      rw [hx] at h1
      simp [pyWs] at h1
    simpa using h2

theorem lstripT_eq_self {t : Text} (h : ∀ c, t.head? = some c → pyWs c = false) :
    lstripT t = t := by
  cases t with
  | nil => rfl
  | cons c r =>
    have := h c rfl
    simp [lstripT, List.dropWhile_cons, this]

theorem rstripT_eq_self {t : Text} (h : ∀ c, t.getLast? = some c → pyWs c = false) :
    rstripT t = t := by
  rw [rstripT, List.rdropWhile_eq_self_iff]
  intro hl
  have := h (t.getLast hl) (List.getLast?_eq_getLast_of_ne_nil hl)
  simp [this]

theorem stripT_idem (t : Text) : stripT (stripT t) = stripT t := by
  have h1 : lstripT (stripT t) = stripT t :=
    lstripT_eq_self (fun c hc => pyWs_head?_stripT hc)
  show rstripT (lstripT (stripT t)) = stripT t
  rw [h1]
  exact rstripT_eq_self (fun c hc => pyWs_getLast?_stripT hc)

theorem stripT_eq_self_of (t : Text)
    (hh : ∀ c, t.head? = some c → pyWs c = false)
    (hl : ∀ c, t.getLast? = some c → pyWs c = false) : stripT t = t := by
  show rstripT (lstripT t) = t
  rw [lstripT_eq_self hh, rstripT_eq_self hl]

theorem joinNN_cons_cons (b b2 : Text) (bs : List Text) :
    joinNN (b :: b2 :: bs) = b ++ '\n' :: '\n' :: joinNN (b2 :: bs) := by
  rw [joinNN]

theorem joinNN_singleton (b : Text) : joinNN [b] = b := by
  rw [joinNN]; simp

theorem joinNN_head? {b : Text} (bs : List Text) (hne : b ≠ []) :
    (joinNN (b :: bs)).head? = b.head? := by
  cases bs with
  | nil => rw [joinNN_singleton]
  | cons b2 bs2 =>
    rw [joinNN_cons_cons]
    exact List.head?_append_of_ne_nil _ hne

theorem joinNN_ne_nil {b : Text} (bs : List Text) (hne : b ≠ []) :
    joinNN (b :: bs) ≠ [] := by
  intro hx
  have h1 := joinNN_head? bs hne
  rw [hx] at h1
  cases b with
  | nil => exact hne rfl
  | cons x xs => exact Option.noConfusion h1

theorem joinNN_getLast?_mem {bs : List Text} (hne : bs ≠ [])
    (hall : ∀ b ∈ bs, b ≠ []) :
    ∃ b0, b0 ∈ bs ∧ (joinNN bs).getLast? = b0.getLast? := by
  induction bs with
  | nil => exact absurd rfl hne
  | cons b bs2 ih =>
    cases bs2 with
    | nil => exact ⟨b, List.mem_cons_self _ _, by rw [joinNN_singleton]⟩
    | cons b2 bs3 =>
      obtain ⟨b0, hm, he⟩ := ih (by simp)
        (fun x hx => hall x (List.mem_cons_of_mem _ hx))
      refine ⟨b0, List.mem_cons_of_mem _ hm, ?_⟩
      rw [joinNN_cons_cons]
      rw [show b ++ '\n' :: '\n' :: joinNN (b2 :: bs3)
            = (b ++ ['\n', '\n']) ++ joinNN (b2 :: bs3) from by simp]
      rw [List.getLast?_append_of_ne_nil _
        (joinNN_ne_nil bs3 (hall b2 (List.mem_cons_of_mem _ (List.mem_cons_self _ _))))]
      exact he

theorem stripT_joinNN {bs : List Text} (hb : ∀ b ∈ bs, b ≠ [] ∧ stripT b = b) :
    stripT (joinNN bs) = joinNN bs := by
  cases bs with
  | nil => rfl
  | cons b bs2 =>
    apply stripT_eq_self_of
    · intro c hc
      rw [joinNN_head? bs2 (hb b (List.mem_cons_self _ _)).1] at hc
      have h2 := (hb b (List.mem_cons_self _ _)).2
      exact pyWs_head?_stripT (by rw [h2]; exact hc)
    · intro c hc
      obtain ⟨b0, hm, he⟩ := joinNN_getLast?_mem (List.cons_ne_nil _ _)
        (fun x hx => (hb x hx).1)
      rw [he] at hc
      have h2 := (hb b0 hm).2
      exact pyWs_getLast?_stripT (by rw [h2]; exact hc)

/-!
Properties of the deduplication loop.
-/

theorem keyB_stripT (b : Text) : keyB (stripT b) = keyB b := by
  unfold keyB firstLineOfBlock
  rw [stripT_idem]

theorem dedupeBlocksAux_mem {seen : List Text} {bs : List Text} {e : Text}
    (h : e ∈ dedupeBlocksAux seen bs) :
    ∃ b ∈ bs, e = stripT b ∧ (stripT b).isEmpty = false := by
  induction bs generalizing seen with
  | nil => simp [dedupeBlocksAux] at h
  | cons b bs2 ih =>
    rw [dedupeBlocksAux] at h
    by_cases h1 : (stripT b).isEmpty
    · rw [if_pos h1] at h
      obtain ⟨b2, hm, he⟩ := ih h
      exact ⟨b2, List.mem_cons_of_mem _ hm, he⟩
    · rw [if_neg h1] at h
      by_cases h2 : cleanTitleKey (firstLineOfBlock b) ∈ seen
      · rw [if_pos h2] at h
        obtain ⟨b2, hm, he⟩ := ih h
        exact ⟨b2, List.mem_cons_of_mem _ hm, he⟩
      · rw [if_neg h2] at h
        rcases List.mem_cons.mp h with h3 | h3
        · exact ⟨b, List.mem_cons_self _ _, h3, by simpa using h1⟩
        · obtain ⟨b2, hm, he⟩ := ih h3
          exact ⟨b2, List.mem_cons_of_mem _ hm, he⟩

theorem dedupeBlocksAux_keys {seen : List Text} {bs : List Text} :
    ((dedupeBlocksAux seen bs).map keyB).Nodup ∧
      ∀ e ∈ dedupeBlocksAux seen bs, keyB e ∉ seen := by
  induction bs generalizing seen with
  | nil => simp [dedupeBlocksAux]
  | cons b bs2 ih =>
    rw [dedupeBlocksAux]
    by_cases h1 : (stripT b).isEmpty
    · rw [if_pos h1]; exact ih
    · rw [if_neg h1]
      by_cases h2 : cleanTitleKey (firstLineOfBlock b) ∈ seen
      · rw [if_pos h2]; exact ih
      · rw [if_neg h2]
        have hkey : keyB (stripT b) = keyB b := keyB_stripT b
        have hkb : keyB b = cleanTitleKey (firstLineOfBlock b) := rfl
        obtain ⟨ihn, ihs⟩ := @ih (cleanTitleKey (firstLineOfBlock b) :: seen)
        constructor
        · rw [List.map_cons, List.nodup_cons]
          refine ⟨?_, ihn⟩
          intro hmem
          obtain ⟨e, hme, hke⟩ := List.mem_map.mp hmem
          have := ihs e hme
          rw [hke, hkey, hkb] at this
          exact this (List.mem_cons_self _ _)
        · intro e hme
          rcases List.mem_cons.mp hme with h3 | h3
          · rw [h3, hkey, hkb]
            exact h2
          · exact fun hx => ihs e h3 (List.mem_cons_of_mem _ hx)

theorem dedupeBlocksAux_fixpoint {seen : List Text} {bs : List Text}
    (hb : ∀ b ∈ bs, stripT b = b ∧ (stripT b).isEmpty = false)
    (hn : (bs.map keyB).Nodup) (hs : ∀ b ∈ bs, keyB b ∉ seen) :
    dedupeBlocksAux seen bs = bs := by
  induction bs generalizing seen with
  | nil => rfl
  | cons b bs2 ih =>
    have h1 := (hb b (List.mem_cons_self _ _)).2
    have h2 : cleanTitleKey (firstLineOfBlock b) ∉ seen := hs b (List.mem_cons_self _ _)
    rw [dedupeBlocksAux, if_neg (by simp [h1]), if_neg h2,
      (hb b (List.mem_cons_self _ _)).1]
    rw [List.map_cons, List.nodup_cons] at hn
    rw [ih (fun x hx => hb x (List.mem_cons_of_mem _ hx)) hn.2]
    intro x hx he
    rcases List.mem_cons.mp he with h3 | h3
    · exact hn.1 (List.mem_map.mpr ⟨x, hx, h3⟩)
    · exact hs x (List.mem_cons_of_mem _ hx) h3

theorem dedupeBlocksAux_find? {bs : List Text} {k : Text} :
    ∀ {seen : List Text}, k ∉ seen →
      (dedupeBlocksAux seen bs).find? (fun e => decide (keyB e = k))
        = (bs.find? (fun b => !(stripT b).isEmpty && decide (keyB b = k))).map stripT := by
  induction bs with
  | nil => intro seen _; rfl
  | cons b bs2 ih =>
    intro seen hk
    rw [dedupeBlocksAux]
    by_cases h1 : (stripT b).isEmpty
    · rw [if_pos h1, ih hk, List.find?_cons]
      have : (!(stripT b).isEmpty && decide (keyB b = k)) = false := by simp [h1]
      rw [this]
    · rw [if_neg h1]
      by_cases hbk : keyB b = k
      · have hnotin : cleanTitleKey (firstLineOfBlock b) ∉ seen := by
          rw [show cleanTitleKey (firstLineOfBlock b) = keyB b from rfl, hbk]
          exact hk
        rw [if_neg hnotin, List.find?_cons, List.find?_cons]
        have ht : decide (keyB (stripT b) = k) = true := by
          simp [keyB_stripT, hbk]
        have ht2 : (!(stripT b).isEmpty && decide (keyB b = k)) = true := by
          simp [h1, hbk]
        rw [ht, ht2]
        rfl
      · by_cases h2 : cleanTitleKey (firstLineOfBlock b) ∈ seen
        · rw [if_pos h2, ih hk, List.find?_cons]
          have : (!(stripT b).isEmpty && decide (keyB b = k)) = false := by
            simp [hbk]
          rw [this]
        · rw [if_neg h2, List.find?_cons, List.find?_cons]
          have ht : decide (keyB (stripT b) = k) = false := by
            simp [keyB_stripT, hbk]
          have ht2 : (!(stripT b).isEmpty && decide (keyB b = k)) = false := by
            simp [hbk]
          rw [ht, ht2]
          apply ih
          intro hx
          rcases List.mem_cons.mp hx with h3 | h3
          · exact hbk h3.symm
          · exact hk h3

theorem filter_length_le_one_of_nodup_map {l : List Text} {f : Text → Text} {k : Text}
    (h : (l.map f).Nodup) : (l.filter (fun x => decide (f x = k))).length ≤ 1 := by
  induction l with
  | nil => simp
  | cons x xs ih =>
    rw [List.map_cons, List.nodup_cons] at h
    by_cases hx : f x = k
    · rw [List.filter_cons_of_pos (by simp [hx])]
      have : xs.filter (fun y => decide (f y = k)) = [] := by
        rw [List.filter_eq_nil_iff]
        intro y hy
        simp only [decide_eq_true_eq]
        intro he
        exact h.1 (List.mem_map.mpr ⟨y, hy, by rw [he, hx]⟩)
      simp [this]
    · rw [List.filter_cons_of_neg (by simp [hx])]
      exact ih h.2

theorem dedupe_out_props {xs : List Text} {e : Text}
    (he : e ∈ dedupeBlocksAux [] (xs.flatMap splitNN)) :
    stripT e = e ∧ e ≠ [] ∧ noNN e = true ∧ endsNL e = false := by
  obtain ⟨b, hb, heq, hne⟩ := dedupeBlocksAux_mem he
  have hnoNN_b : noNN b = true := by
    obtain ⟨t, _, hbt⟩ := List.mem_flatMap.mp hb
    exact noNN_of_mem_splitNN hbt
  refine ⟨by rw [heq, stripT_idem], ?_, ?_, ?_⟩
  · rw [heq]
    intro hx
    rw [hx] at hne
    simp at hne
  · rw [heq]
    exact noNN_stripT hnoNN_b
  · rw [heq]
    exact endsNL_stripT b

theorem deduplicatePapers_idem (xs : List Text) :
    deduplicatePapers [deduplicatePapers xs] = deduplicatePapers xs := by
  by_cases hxs : xs.isEmpty
  · have : xs = [] := by cases xs <;> simp_all
    subst this
    decide
  · have hrhs : deduplicatePapers xs
        = joinNN (dedupeBlocksAux [] (xs.flatMap splitNN)) := by
      rw [deduplicatePapers, if_neg hxs]
    rw [hrhs, deduplicatePapers, if_neg (by simp)]
    rw [show ([joinNN (dedupeBlocksAux [] (xs.flatMap splitNN))] : List Text).flatMap splitNN
          = splitNN (joinNN (dedupeBlocksAux [] (xs.flatMap splitNN))) from by simp]
    by_cases hout : dedupeBlocksAux [] (xs.flatMap splitNN) = []
    · rw [hout]
      rfl
    · have hsplit : splitNN (joinNN (dedupeBlocksAux [] (xs.flatMap splitNN)))
          = dedupeBlocksAux [] (xs.flatMap splitNN) := by
        apply splitNN_joinNN hout
        intro b hb
        exact ⟨(dedupe_out_props hb).2.2.1, (dedupe_out_props hb).2.2.2⟩
      rw [hsplit]
      rw [dedupeBlocksAux_fixpoint ?_ (dedupeBlocksAux_keys).1 (by simp)]
      intro b hb
      refine ⟨(dedupe_out_props hb).1, ?_⟩
      rw [(dedupe_out_props hb).1]
      simpa using (dedupe_out_props hb).2.1

/-- C2: deduplication is idempotent (`dedupe(dedupe(X)) == dedupe(X)`),
and for every normalized title key occurring among the non-blank blocks
of the input blobs, the single output block with that key is the stripped
first occurrence in argument order (later duplicates are dropped in
full). -/
theorem c2_dedupe_idempotent_first_wins (xs : List Text) (b : Text)
    (hmem : b ∈ xs.flatMap splitNN) (hval : (stripT b).isEmpty = false) :
    deduplicatePapers [deduplicatePapers xs] = deduplicatePapers xs ∧
    (dedupeBlocksAux [] (xs.flatMap splitNN)).find? (fun e => decide (keyB e = keyB b))
      = ((xs.flatMap splitNN).find?
          (fun c => !(stripT c).isEmpty && decide (keyB c = keyB b))).map stripT ∧
    ((dedupeBlocksAux [] (xs.flatMap splitNN)).filter
        (fun e => decide (keyB e = keyB b))).length = 1 := by
  have hfind := @dedupeBlocksAux_find? (xs.flatMap splitNN) (keyB b) [] (by simp)
  refine ⟨deduplicatePapers_idem xs, hfind, ?_⟩
  have hle : ((dedupeBlocksAux [] (xs.flatMap splitNN)).filter
      (fun e => decide (keyB e = keyB b))).length ≤ 1 :=
    filter_length_le_one_of_nodup_map (dedupeBlocksAux_keys).1
  cases hf : (xs.flatMap splitNN).find?
      (fun c => !(stripT c).isEmpty && decide (keyB c = keyB b)) with
  | none =>
    exfalso
    have := List.find?_eq_none.mp hf b hmem
    simp [hval] at this
  | some y =>
    rw [hf] at hfind
    have hy1 : y ∈ xs.flatMap splitNN := List.mem_of_find?_eq_some hf
    have hmem2 : stripT y ∈ dedupeBlocksAux [] (xs.flatMap splitNN) := by
      have := List.mem_of_find?_eq_some (p := fun e => decide (keyB e = keyB b)) hfind
      simpa using this
    have hpred : decide (keyB (stripT y) = keyB b) = true := by
      have := List.find?_some hfind
      simpa using this
    have hpos : 0 < ((dedupeBlocksAux [] (xs.flatMap splitNN)).filter
        (fun e => decide (keyB e = keyB b))).length := by
      apply List.length_pos.mpr
      intro hx
      have : stripT y ∈ (dedupeBlocksAux [] (xs.flatMap splitNN)).filter
          (fun e => decide (keyB e = keyB b)) := List.mem_filter.mpr ⟨hmem2, hpred⟩
      rw [hx] at this
      exact List.not_mem_nil _ this
    omega

/-- Witness for C2 at a concrete two-blob input whose second blob repeats
the first blob's title with a different case and year. -/
theorem c2_dedupe_idempotent_first_wins_witness :
    ((txt "a (2021) by Y\nURL: v") ∈
        ([txt "A (2020) by X\nURL: u",
          txt "a (2021) by Y\nURL: v\n\nB (2020) by Z\nURL: w"] : List Text).flatMap splitNN ∧
      (stripT (txt "a (2021) by Y\nURL: v")).isEmpty = false) ∧
    (deduplicatePapers [deduplicatePapers [txt "A (2020) by X\nURL: u",
        txt "a (2021) by Y\nURL: v\n\nB (2020) by Z\nURL: w"]]
      = deduplicatePapers [txt "A (2020) by X\nURL: u",
        txt "a (2021) by Y\nURL: v\n\nB (2020) by Z\nURL: w"] ∧
    (dedupeBlocksAux []
        (([txt "A (2020) by X\nURL: u",
           txt "a (2021) by Y\nURL: v\n\nB (2020) by Z\nURL: w"] : List Text).flatMap splitNN)).find?
        (fun e => decide (keyB e = keyB (txt "a (2021) by Y\nURL: v")))
      = ((([txt "A (2020) by X\nURL: u",
            txt "a (2021) by Y\nURL: v\n\nB (2020) by Z\nURL: w"] : List Text).flatMap splitNN).find?
          (fun c => !(stripT c).isEmpty &&
            decide (keyB c = keyB (txt "a (2021) by Y\nURL: v")))).map stripT ∧
    ((dedupeBlocksAux []
        (([txt "A (2020) by X\nURL: u",
           txt "a (2021) by Y\nURL: v\n\nB (2020) by Z\nURL: w"] : List Text).flatMap splitNN)).filter
        (fun e => decide (keyB e = keyB (txt "a (2021) by Y\nURL: v")))).length = 1) :=
  ⟨⟨by decide, by decide⟩,
    c2_dedupe_idempotent_first_wins _ _ (by decide) (by decide)⟩

/-- C9: for every instructions text and every report text (however
malformed), the synthesis guardrail returns its result record — with the
issues, notes, word count, and target range fields — and never triggers
its tripwire; the embedded function is total, which models that the
source never raises. -/
theorem c9_guardrail_never_blocks (instructions output : Text) :
    (synthesisOutputGuardrail instructions output).tripwireTriggered = false ∧
    (synthesisOutputGuardrail instructions output).outputInfo.wordCount
      = wordCountT (extractSections output).mainSynthesis ∧
    (synthesisOutputGuardrail instructions output).outputInfo.targetRange
      = mainSynthesisTargetRange instructions :=
  ⟨rfl, rfl, rfl⟩

/-- C3 counterexample: in `reportFooNoRefs` the Main synthesis cites
`[Foo Study, 2024]`, the key is absent from the (empty) reference-key
set, yet no unmatched-citation issue is produced, because the check is
guarded by `if cites and ref_keys`. -/
theorem c3_unmatched_citation_counterexample :
    findInlineCitations (extractSections reportFooNoRefs).mainSynthesis
        = [txt "Foo Study, 2024"] ∧
    parseReferences (extractSections reportFooNoRefs).references = [] ∧
    (synthesisOutputGuardrail (txt "") reportFooNoRefs).outputInfo.issues.all
        (fun i => !startsWithT i (txt "Inline citations")) = true := by
  refine ⟨by decide, by decide, by decide⟩

/-- C3 amended: whenever the parsed reference-key set is non-empty, every
inline citation key of the Main synthesis absent from it makes the
guardrail add the issue listing exactly the unmatched keys. -/
theorem c3_unmatched_citation_issue (instructions output : Text)
    (href : parseReferences (extractSections output).references ≠ [])
    (hunm : (findInlineCitations (extractSections output).mainSynthesis).filter
        (fun c => c ∉ parseReferences (extractSections output).references) ≠ []) :
    unmatchedCitationsIssue
        ((findInlineCitations (extractSections output).mainSynthesis).filter
          (fun c => c ∉ parseReferences (extractSections output).references))
      ∈ (synthesisOutputGuardrail instructions output).outputInfo.issues := by
  have hcites : findInlineCitations (extractSections output).mainSynthesis ≠ [] := by
    intro hx
    rw [hx] at hunm
    simp at hunm
  simp only [synthesisOutputGuardrail]
  refine List.mem_append.mpr (Or.inr ?_)
  rw [if_pos ⟨by simpa using hcites, by simpa using href, by simpa using hunm⟩]
  exact List.mem_cons_self _ _

/-- Witness for the amended C3 at `reportFooWithRefs`: the References
section parses to one key, `[Foo Study, 2024]` does not match it, and the
issue listing it is produced. -/
theorem c3_unmatched_citation_issue_witness :
    (parseReferences (extractSections reportFooWithRefs).references ≠ [] ∧
      (findInlineCitations (extractSections reportFooWithRefs).mainSynthesis).filter
        (fun c => c ∉ parseReferences (extractSections reportFooWithRefs).references) ≠ []) ∧
    unmatchedCitationsIssue
        ((findInlineCitations (extractSections reportFooWithRefs).mainSynthesis).filter
          (fun c => c ∉ parseReferences (extractSections reportFooWithRefs).references))
      ∈ (synthesisOutputGuardrail (txt "") reportFooWithRefs).outputInfo.issues :=
  ⟨⟨by decide, by decide⟩,
    c3_unmatched_citation_issue (txt "") reportFooWithRefs (by decide) (by decide)⟩

/-!
Properties of the fallback relevance scorer.
-/

theorem containsSub_nil {t : Text} (h : t ≠ []) : containsSub t [] = false := by
  rw [containsSub, breakSub]
  simp [List.isEmpty_iff, h]

theorem mem_fallbackQueryTerms_ne_nil {q t : Text} (h : t ∈ fallbackQueryTerms q) :
    t ≠ [] := by
  rw [fallbackQueryTerms] at h
  have h2 := List.mem_dedup.mp h
  have h3 := (List.mem_filter.mp h2).2
  simp only [Bool.and_eq_true, decide_eq_true_eq] at h3
  intro hx
  rw [hx] at h3
  simp at h3

/-- C8: when the query has at least one extractable term and the paper's
lower-cased title contains every term, the fallback scorer assigns the
score 0.7 exactly on an empty abstract, and admits the paper
(0.7 >= 0.4). -/
theorem c8_fallback_full_title_match (query : Text) (paper : ParsedPaper)
    (hterms : fallbackQueryTerms (lowerT query) ≠ [])
    (hall : ∀ t ∈ fallbackQueryTerms (lowerT query),
      containsSub t (lowerT paper.title) = true)
    (habs : paper.abstract = []) :
    (fallbackRelevanceScoring query paper).relevanceScore = 7 / 10 ∧
    (fallbackRelevanceScoring query paper).isRelevant = true := by
  have hfilter : (fallbackQueryTerms (lowerT query)).filter
      (fun t => containsSub t (lowerT paper.title))
        = fallbackQueryTerms (lowerT query) :=
    List.filter_eq_self.mpr hall
  have habs2 : (fallbackQueryTerms (lowerT query)).filter
      (fun t => containsSub t (lowerT paper.abstract)) = [] := by
    rw [List.filter_eq_nil_iff]
    intro t ht
    rw [habs]
    simp [containsSub_nil (mem_fallbackQueryTerms_ne_nil ht), lowerT]
  have hn : (fallbackQueryTerms (lowerT query)).length ≠ 0 := by
    simpa [List.length_eq_zero] using hterms
  have hscore : (fallbackRelevanceScoring query paper).relevanceScore = 7 / 10 := by
    show (if (fallbackQueryTerms (lowerT query)).length = 0 then (0 : ℚ)
      else min 1 ((7 / 10) *
          (((((fallbackQueryTerms (lowerT query)).filter
              (fun t => containsSub t (lowerT paper.title))).length : ℕ) : ℚ)
            / (((fallbackQueryTerms (lowerT query)).length : ℕ) : ℚ)) +
        (3 / 10) *
          (((((fallbackQueryTerms (lowerT query)).filter
              (fun t => containsSub t (lowerT paper.abstract))).length : ℕ) : ℚ)
            / (((fallbackQueryTerms (lowerT query)).length : ℕ) : ℚ)))) = 7 / 10
    rw [if_neg hn, hfilter, habs2]
    have hq : (((fallbackQueryTerms (lowerT query)).length : ℚ)) ≠ 0 := by
      exact_mod_cast hn
    rw [div_self hq]
    simp
    norm_num
  refine ⟨hscore, ?_⟩
  show decide ((4 : ℚ) / 10 ≤ (fallbackRelevanceScoring query paper).relevanceScore) = true
  rw [hscore]
  norm_num

/-- Witness for C8: the query has the two terms quantum and computing,
both contained in the title, and the abstract is empty. -/
theorem c8_fallback_full_title_match_witness :
    (fallbackQueryTerms (lowerT (txt "Quantum Computing")) ≠ [] ∧
      (∀ t ∈ fallbackQueryTerms (lowerT (txt "Quantum Computing")),
        containsSub t (lowerT (txt "Advances in Quantum Computing")) = true)) ∧
    ((fallbackRelevanceScoring (txt "Quantum Computing")
        ⟨txt "p0", txt "Advances in Quantum Computing", [], [], [], [], []⟩).relevanceScore
          = 7 / 10 ∧
      (fallbackRelevanceScoring (txt "Quantum Computing")
        ⟨txt "p0", txt "Advances in Quantum Computing", [], [], [], [], []⟩).isRelevant
          = true) :=
  ⟨⟨by decide, by decide⟩,
    c8_fallback_full_title_match _ _ (by decide) (by decide) rfl⟩

/-- C5 counterexample: an external relevance evaluation that reports
`relevance_score = 1.5` is passed through unclamped, so the resulting
score lies outside `[0, 1]`. -/
theorem c5_external_score_unclamped_counterexample :
    (evaluatePaperRelevance
        (Except.ok ⟨none, some (3 / 2), none, none, some true, some 1⟩)
        (txt "q") ⟨txt "p0", txt "T", [], [], [], [], []⟩).relevanceScore = 3 / 2 ∧
    ¬ ((evaluatePaperRelevance
        (Except.ok ⟨none, some (3 / 2), none, none, some true, some 1⟩)
        (txt "q") ⟨txt "p0", txt "T", [], [], [], [], []⟩).relevanceScore ≤ 1) ∧
    (classifyPaperDomain [.physics] false []
        (Except.ok ⟨some (txt "physics"), [], [], some true, some (3 / 2), []⟩)
        ⟨[.physics], [], [(.physics, 1)], [], []⟩ (txt "p0")).relevanceScore = 3 / 2 :=
  ⟨rfl, by show ¬ ((3 : ℚ) / 2 ≤ 1); norm_num, rfl⟩

theorem fallback_score_unit_interval (q : Text) (p : ParsedPaper) :
    0 ≤ (fallbackRelevanceScoring q p).relevanceScore ∧
      (fallbackRelevanceScoring q p).relevanceScore ≤ 1 := by
  show 0 ≤ (if (fallbackQueryTerms (lowerT q)).length = 0 then (0 : ℚ) else min 1 _) ∧
    (if (fallbackQueryTerms (lowerT q)).length = 0 then (0 : ℚ) else min 1 _) ≤ 1
  by_cases hn : (fallbackQueryTerms (lowerT q)).length = 0
  · rw [if_pos hn]
    norm_num
  · rw [if_neg hn]
    constructor
    · apply le_min
      · norm_num
      · have h1 : (0 : ℚ) ≤ (((fallbackQueryTerms (lowerT q)).filter
            (fun t => containsSub t (lowerT p.title))).length : ℚ)
              / (((fallbackQueryTerms (lowerT q)).length : ℕ) : ℚ) := by positivity
        have h2 : (0 : ℚ) ≤ (((fallbackQueryTerms (lowerT q)).filter
            (fun t => containsSub t (lowerT p.abstract))).length : ℚ)
              / (((fallbackQueryTerms (lowerT q)).length : ℕ) : ℚ) := by positivity
        nlinarith
    · exact min_le_left 1 _

/-- C5 amended: the fallback relevance scorer always produces a score in
`[0, 1]`; both classifier fallback paths produce a score in `[0, 1]`; and
when the external capability's parsed output is used, its reported score
is passed through unchanged, so the result lies in `[0, 1]` exactly when
the capability honours its documented contract. -/
theorem c5_scores_in_unit_interval_amended :
    (∀ (aiOut : Except Unit AIEval) (q : Text) (p : ParsedPaper),
      (∀ ev s, aiOut = Except.ok ev → ev.relevanceScore = some s → 0 ≤ s ∧ s ≤ 1) →
      0 ≤ (evaluatePaperRelevance aiOut q p).relevanceScore ∧
        (evaluatePaperRelevance aiOut q p).relevanceScore ≤ 1) ∧
    (∀ (det : List ResearchDomain) (excl : Bool) (reasons : List Text)
        (aiOut : Except Unit AIClass) (ctx : DomainContext) (pid : Text),
      (∀ ai s, aiOut = Except.ok ai → ai.overallRelevance = some s → 0 ≤ s ∧ s ≤ 1) →
      0 ≤ (classifyPaperDomain det excl reasons aiOut ctx pid).relevanceScore ∧
        (classifyPaperDomain det excl reasons aiOut ctx pid).relevanceScore ≤ 1) := by
  constructor
  · intro aiOut q p hcontract
    match aiOut with
    | .error _ => exact fallback_score_unit_interval q p
    | .ok ev =>
      show 0 ≤ ev.relevanceScore.getD 0 ∧ ev.relevanceScore.getD 0 ≤ 1
      cases hev : ev.relevanceScore with
      | none => norm_num
      | some s => simpa using hcontract ev s rfl hev
  · intro det excl reasons aiOut ctx pid hcontract
    have hfb : 0 ≤ (classifyPaperDomainFallback det excl reasons ctx pid).relevanceScore ∧
        (classifyPaperDomainFallback det excl reasons ctx pid).relevanceScore ≤ 1 := by
      simp only [classifyPaperDomainFallback]
      split <;> norm_num
    match aiOut with
    | .error _ => exact hfb
    | .ok ai =>
      rw [classifyPaperDomain]
      cases htry : classifyPaperDomainTry det excl reasons ai pid with
      | none => exact hfb
      | some r =>
        have hr : r.relevanceScore
            = if excl then 0 else ai.overallRelevance.getD (1 / 2) := by
          rw [classifyPaperDomainTry.eq_def] at htry
          simp only [] at htry
          split at htry
          · exact Option.noConfusion htry
          · rw [← Option.some_inj.mp htry]
        show 0 ≤ r.relevanceScore ∧ r.relevanceScore ≤ 1
        rw [hr]
        by_cases he : excl = true
        · simp [he]
        · rw [if_neg (by simpa using he)]
          cases hov : ai.overallRelevance with
          | none => norm_num
          | some s => simpa using hcontract ai s rfl hov

/-- Witness for the amended C5 at concrete inputs: a failed external call
(fallback path) and a conforming external call. -/
theorem c5_scores_in_unit_interval_amended_witness :
    (∀ ev s, (Except.error () : Except Unit AIEval) = Except.ok ev →
        ev.relevanceScore = some s → 0 ≤ s ∧ s ≤ 1) ∧
    (0 ≤ (evaluatePaperRelevance (Except.error ()) (txt "q")
        ⟨txt "p0", txt "T", [], [], [], [], []⟩).relevanceScore ∧
      (evaluatePaperRelevance (Except.error ()) (txt "q")
        ⟨txt "p0", txt "T", [], [], [], [], []⟩).relevanceScore ≤ 1) :=
  ⟨fun _ _ h _ => Except.noConfusion h,
    (c5_scores_in_unit_interval_amended.1 (Except.error ()) (txt "q")
      ⟨txt "p0", txt "T", [], [], [], [], []⟩
      (fun _ _ h _ => Except.noConfusion h))⟩

/-- The fan-out loop's success test is exactly the negation of
`isSoftFail` on a returned result. -/
theorem softFail_ok_iff (r : Text) :
    isSoftFail (Except.ok r) = false ↔
      (¬ r.isEmpty = true ∧ r ≠ txt "No papers found." ∧
        ¬ startsWithT r (txt "Error") = true) := by
  rw [isSoftFail]
  constructor
  · intro h
    simp only [Bool.or_eq_false_iff, decide_eq_false_iff_not] at h
    exact ⟨by simp [h.1.1], h.1.2, by simp [h.2]⟩
  · intro ⟨h1, h2, h3⟩
    simp only [Bool.or_eq_false_iff, decide_eq_false_iff_not]
    exact ⟨⟨by simpa using h1, h2⟩, by simpa using h3⟩

/-- Unfolding of the fan-out loop on a soft-failing head query. -/
theorem executeSearchQueries_cons_fail (fetch : Text → Except Unit Text)
    (q0 : Text) (qs : List Text) (h : isSoftFail (fetch q0) = true) :
    executeSearchQueries fetch (q0 :: qs)
      = ((executeSearchQueries fetch qs).1,
         { (executeSearchQueries fetch qs).2 with
             failedQueries := q0 :: (executeSearchQueries fetch qs).2.failedQueries }) := by
  rcases hf : fetch q0 with e | r
  · rw [executeSearchQueries, hf]
  · rw [executeSearchQueries, hf]
    dsimp only []
    rw [if_neg]
    intro hc
    rw [hf] at h
    rw [(softFail_ok_iff r).mpr ⟨by simpa using hc.1, hc.2.1, by simpa using hc.2.2⟩] at h
    exact Bool.noConfusion h

/-- Unfolding of the fan-out loop on a successful head query. -/
theorem executeSearchQueries_cons_ok (fetch : Text → Except Unit Text)
    (q0 : Text) (qs : List Text) (r : Text) (hf : fetch q0 = Except.ok r)
    (h : isSoftFail (Except.ok r) = false) :
    executeSearchQueries fetch (q0 :: qs)
      = (r :: (executeSearchQueries fetch qs).1,
         { queriesExecuted := q0 :: (executeSearchQueries fetch qs).2.queriesExecuted
           papersPerQuery :=
             (q0, countPaperBlocks r) :: (executeSearchQueries fetch qs).2.papersPerQuery
           failedQueries := (executeSearchQueries fetch qs).2.failedQueries }) := by
  have hc := (softFail_ok_iff r).mp h
  rw [executeSearchQueries, hf]
  dsimp only []
  rw [if_pos ⟨by simpa using hc.1, hc.2.1, by simpa using hc.2.2⟩]

/-- Every occurrence of every query is recorded in exactly one of
`queries_executed` and `failed_queries`. -/
theorem executeSearchQueries_count (fetch : Text → Except Unit Text)
    (queries : List Text) (q : Text) :
    (executeSearchQueries fetch queries).2.queriesExecuted.count q
        + (executeSearchQueries fetch queries).2.failedQueries.count q
      = queries.count q := by
  induction queries with
  | nil => rfl
  | cons q0 qs ih =>
    by_cases hsf : isSoftFail (fetch q0) = true
    · rw [executeSearchQueries_cons_fail fetch q0 qs hsf]
      simp only [List.count_cons]
      omega
    · rcases hf : fetch q0 with e | r
      · rw [hf] at hsf
        simp [isSoftFail] at hsf
      · rw [executeSearchQueries_cons_ok fetch q0 qs r hf
          (by rw [hf] at hsf; simpa using hsf)]
        simp only [List.count_cons]
        omega

/-- C6: a fetcher exception or a no-results/error marker for a query is
recorded in `failed_queries`, a successful query is recorded in
`queries_executed`, and every occurrence of every query lands in exactly
one of the two lists — the loop never aborts the remaining queries. -/
theorem c6_soft_fail_continues (fetch : Text → Except Unit Text)
    (queries : List Text) (q : Text) (hq : q ∈ queries) :
    (isSoftFail (fetch q) = true →
      q ∈ (executeSearchQueries fetch queries).2.failedQueries) ∧
    (isSoftFail (fetch q) = false →
      q ∈ (executeSearchQueries fetch queries).2.queriesExecuted) ∧
    (executeSearchQueries fetch queries).2.queriesExecuted.count q
        + (executeSearchQueries fetch queries).2.failedQueries.count q
      = queries.count q := by
  refine ⟨?_, ?_, executeSearchQueries_count fetch queries q⟩ <;>
  · intro hsf
    induction queries with
    | nil => exact absurd hq (List.not_mem_nil q)
    | cons q0 qs ih =>
      by_cases hsf0 : isSoftFail (fetch q0) = true
      · rw [executeSearchQueries_cons_fail fetch q0 qs hsf0]
        rcases List.mem_cons.mp hq with hq0 | hqs
        · subst hq0
          first
            | exact List.mem_cons_self _ _
            | (rw [hsf] at hsf0; exact Bool.noConfusion hsf0)
        · first
            | exact List.mem_cons_of_mem _ (ih hqs)
            | exact ih hqs
      · rcases hf : fetch q0 with e | r
        · rw [hf] at hsf0
          simp [isSoftFail] at hsf0
        · rw [executeSearchQueries_cons_ok fetch q0 qs r hf
            (by rw [hf] at hsf0; simpa using hsf0)]
          rcases List.mem_cons.mp hq with hq0 | hqs
          · subst hq0
            first
              | exact List.mem_cons_self _ _
              | exact absurd hsf hsf0
          · first
              | exact List.mem_cons_of_mem _ (ih hqs)
              | exact ih hqs

/-- Witness for C6: two queries, the second of which raises. -/
theorem c6_soft_fail_continues_witness :
    ((txt "boom") ∈ [txt "good", txt "boom"] ∧
      isSoftFail ((fun q => if q = txt "good"
        then (Except.ok (txt "P (2020) by A\nURL: u") : Except Unit Text)
        else Except.error ()) (txt "boom")) = true) ∧
    ((isSoftFail ((fun q => if q = txt "good"
        then (Except.ok (txt "P (2020) by A\nURL: u") : Except Unit Text)
        else Except.error ()) (txt "boom")) = true →
      (txt "boom") ∈ (executeSearchQueries (fun q => if q = txt "good"
        then (Except.ok (txt "P (2020) by A\nURL: u") : Except Unit Text)
        else Except.error ()) [txt "good", txt "boom"]).2.failedQueries) ∧
    (isSoftFail ((fun q => if q = txt "good"
        then (Except.ok (txt "P (2020) by A\nURL: u") : Except Unit Text)
        else Except.error ()) (txt "boom")) = false →
      (txt "boom") ∈ (executeSearchQueries (fun q => if q = txt "good"
        then (Except.ok (txt "P (2020) by A\nURL: u") : Except Unit Text)
        else Except.error ()) [txt "good", txt "boom"]).2.queriesExecuted) ∧
    (executeSearchQueries (fun q => if q = txt "good"
        then (Except.ok (txt "P (2020) by A\nURL: u") : Except Unit Text)
        else Except.error ()) [txt "good", txt "boom"]).2.queriesExecuted.count (txt "boom")
      + (executeSearchQueries (fun q => if q = txt "good"
        then (Except.ok (txt "P (2020) by A\nURL: u") : Except Unit Text)
        else Except.error ()) [txt "good", txt "boom"]).2.failedQueries.count (txt "boom")
      = ([txt "good", txt "boom"] : List Text).count (txt "boom")) :=
  ⟨⟨by decide, by decide⟩,
    c6_soft_fail_continues
      (fun q => if q = txt "good"
        then (Except.ok (txt "P (2020) by A\nURL: u") : Except Unit Text)
        else Except.error ())
      [txt "good", txt "boom"] (txt "boom") (by decide)⟩

/-!
Frame properties of `rank_and_trim_results`.
-/

/-- A trim step for source `s` changes no key other than `s`. -/
theorem trimStep_other (currentYear : ℤ) (results : ResultsMap) (query : Text)
    (maxTotal : ℕ) (m : ResultsMap) (s k : Text) (hk : k ≠ s) :
    trimStep currentYear results query maxTotal m s k = m k := by
  rw [trimStep]
  split
  · rfl
  · rw [updateKey, if_neg hk]

/-- A trim step for a source with no parseable chunks changes nothing. -/
theorem trimStep_no_chunks (currentYear : ℤ) (results : ResultsMap) (query : Text)
    (maxTotal : ℕ) (m : ResultsMap) (s : Text)
    (h : parseSourceChunks ((results s).getD (.str [])) = []) :
    trimStep currentYear results query maxTotal m s = m := by
  rw [trimStep]
  rw [if_pos (by simp [h])]

/-- C10: `rank_and_trim_results` leaves every key other than the three
source keys unchanged; a source whose value has no parseable chunks keeps
its original value; and the source's `try`/`except` wrapper returns the
input unchanged on an exception, which cannot occur because every
operation of the body is total (the one fallible conversion,
`int(year)`, is caught inside `_score_chunk`). -/
theorem c10_rank_trim_frame (currentYear : ℤ) (results : ResultsMap) (query : Text)
    (maxTotal : ℕ) (k : Text)
    (hk1 : k ≠ txt "arxiv") (hk2 : k ≠ txt "pubmed") (hk3 : k ≠ txt "openalex") :
    rankAndTrimResults currentYear results query maxTotal k = results k ∧
    (∀ s, (s = txt "arxiv" ∨ s = txt "pubmed" ∨ s = txt "openalex") →
      parseSourceChunks ((results s).getD (.str [])) = [] →
      rankAndTrimResults currentYear results query maxTotal s = results s) := by
  constructor
  · rw [rankAndTrimResults]
    rw [trimStep_other _ _ _ _ _ _ _ hk3, trimStep_other _ _ _ _ _ _ _ hk2,
      trimStep_other _ _ _ _ _ _ _ hk1]
  · intro s hs hchunks
    rw [rankAndTrimResults]
    rcases hs with h | h | h
    · subst h
      rw [trimStep_other _ _ _ _ _ _ _ (by decide),
        trimStep_other _ _ _ _ _ _ _ (by decide),
        trimStep_no_chunks _ _ _ _ _ _ hchunks]
    · subst h
      rw [trimStep_other _ _ _ _ _ _ _ (by decide),
        trimStep_no_chunks _ _ _ _ _ _ hchunks,
        trimStep_other _ _ _ _ _ _ _ (by decide)]
    · subst h
      rw [trimStep_no_chunks _ _ _ _ _ _ hchunks,
        trimStep_other _ _ _ _ _ _ _ (by decide),
        trimStep_other _ _ _ _ _ _ _ (by decide)]

/-- Witness for C10: a map holding an unrelated key and an arxiv value
with no parseable chunks. -/
theorem c10_rank_trim_frame_witness :
    ((txt "extra") ≠ txt "arxiv" ∧ (txt "extra") ≠ txt "pubmed" ∧
      (txt "extra") ≠ txt "openalex") ∧
    (rankAndTrimResults 2026
        (fun k => if k = txt "extra" then some (.str (txt "keep")) else none)
        (txt "q") 3 (txt "extra")
      = (fun k => if k = txt "extra" then some (PyVal.str (txt "keep")) else none)
          (txt "extra") ∧
    (∀ s, (s = txt "arxiv" ∨ s = txt "pubmed" ∨ s = txt "openalex") →
      parseSourceChunks
          (((fun k => if k = txt "extra" then some (PyVal.str (txt "keep")) else none) s).getD
            (.str [])) = [] →
      rankAndTrimResults 2026
          (fun k => if k = txt "extra" then some (.str (txt "keep")) else none)
          (txt "q") 3 s
        = (fun k => if k = txt "extra" then some (PyVal.str (txt "keep")) else none) s)) :=
  ⟨⟨by decide, by decide, by decide⟩,
    c10_rank_trim_frame 2026
      (fun k => if k = txt "extra" then some (.str (txt "keep")) else none)
      (txt "q") 3 (txt "extra") (by decide) (by decide) (by decide)⟩

/-!
Properties of the stable descending sort and of `rank_and_trim_results`.
-/

theorem length_insertDesc (x : Text × ℚ) (l : List (Text × ℚ)) :
    (insertDesc x l).length = l.length + 1 := by
  induction l with
  | nil => rfl
  | cons y ys ih =>
    rw [insertDesc]
    split
    · simp [ih]
    · simp

theorem length_sortDesc (l : List (Text × ℚ)) : (sortDesc l).length = l.length := by
  induction l with
  | nil => rfl
  | cons x xs ih =>
    rw [sortDesc, length_insertDesc, ih]
    rfl

theorem mem_insertDesc {a x : Text × ℚ} {l : List (Text × ℚ)} :
    a ∈ insertDesc x l ↔ a = x ∨ a ∈ l := by
  induction l with
  | nil => simp [insertDesc]
  | cons y ys ih =>
    rw [insertDesc]
    split
    · simp only [List.mem_cons, ih]
      tauto
    · simp only [List.mem_cons]

theorem mem_sortDesc {a : Text × ℚ} {l : List (Text × ℚ)} :
    a ∈ sortDesc l ↔ a ∈ l := by
  induction l with
  | nil => simp [sortDesc]
  | cons x xs ih =>
    rw [sortDesc, mem_insertDesc, ih]
    simp

theorem filter_insertDesc_pos {x : Text × ℚ} {k : ℚ} (l : List (Text × ℚ))
    (hx : x.2 = k) :
    (insertDesc x l).filter (fun e => decide (e.2 = k))
      = x :: l.filter (fun e => decide (e.2 = k)) := by
  induction l with
  | nil => simp [insertDesc, hx]
  | cons y ys ih =>
    rw [insertDesc]
    split
    · rename_i hlt
      have hy : ¬ y.2 = k := by
        intro he
        rw [hx] at hlt
        rw [he] at hlt
        exact absurd hlt (lt_irrefl k)
      rw [List.filter_cons_of_neg (by simpa using hy), ih,
        List.filter_cons_of_neg (by simpa using hy)]
    · rw [List.filter_cons_of_pos (by simpa using hx)]

theorem filter_insertDesc_neg {x : Text × ℚ} {k : ℚ} (l : List (Text × ℚ))
    (hx : ¬ x.2 = k) :
    (insertDesc x l).filter (fun e => decide (e.2 = k))
      = l.filter (fun e => decide (e.2 = k)) := by
  induction l with
  | nil => simp [insertDesc, hx]
  | cons y ys ih =>
    rw [insertDesc]
    split
    · by_cases hy : y.2 = k
      · rw [List.filter_cons_of_pos (by simpa using hy), ih,
          List.filter_cons_of_pos (by simpa using hy)]
      · rw [List.filter_cons_of_neg (by simpa using hy), ih,
          List.filter_cons_of_neg (by simpa using hy)]
    · rw [List.filter_cons_of_neg (by simpa using hx)]

/-- Stability of the sort: for every score value, the equal-score papers
appear in the output in their input order. -/
theorem filter_sortDesc (l : List (Text × ℚ)) (k : ℚ) :
    (sortDesc l).filter (fun e => decide (e.2 = k))
      = l.filter (fun e => decide (e.2 = k)) := by
  induction l with
  | nil => rfl
  | cons x xs ih =>
    rw [sortDesc]
    by_cases hx : x.2 = k
    · rw [filter_insertDesc_pos _ hx, ih, List.filter_cons_of_pos (by simpa using hx)]
    · rw [filter_insertDesc_neg _ hx, ih, List.filter_cons_of_neg (by simpa using hx)]

/-- Every chunk text produced by `_parse_source_chunks` is stripped,
non-empty, and free of blank-line separators. -/
theorem parseSourceChunks_props {v : PyVal} {c : Text} {m : ChunkMeta}
    (h : (c, m) ∈ parseSourceChunks v) :
    stripT c = c ∧ c ≠ [] ∧ noNN c = true := by
  match v with
  | .other => simp [parseSourceChunks] at h
  | .str t =>
    rw [parseSourceChunks] at h
    by_cases he : (stripT t).isEmpty
    · rw [if_pos he] at h
      simp at h
    · rw [if_neg he] at h
      obtain ⟨c0, hc0, heq⟩ := List.mem_map.mp h
      have hc0f := List.mem_filter.mp hc0
      have hsplit := hc0f.1
      have hnb : ¬ (stripT c0).isEmpty := by simpa using hc0f.2
      have hc : c = stripT c0 := (congrArg Prod.fst heq).symm
      subst hc
      refine ⟨stripT_idem c0, by simpa [List.isEmpty_iff] using hnb, ?_⟩
      exact noNN_stripT (noNN_of_mem_splitNN hsplit)

/-- Reparsing the reserialized kept chunks recovers them exactly. -/
theorem parseSourceChunks_joinNN {tops : List Text} (hne : tops ≠ [])
    (hp : ∀ c ∈ tops, stripT c = c ∧ c ≠ [] ∧ noNN c = true) :
    parseSourceChunks (.str (joinNN tops))
      = tops.map (fun c => (c, chunkMetaOf c)) := by
  have hstrip : stripT (joinNN tops) = joinNN tops :=
    stripT_joinNN (fun b hb => ⟨(hp b hb).2.1, (hp b hb).1⟩)
  have hjoin_ne : joinNN tops ≠ [] := by
    cases tops with
    | nil => exact absurd rfl hne
    | cons b bs => exact joinNN_ne_nil bs (hp b (List.mem_cons_self _ _)).2.1
  have hsplit : splitNN (joinNN tops) = tops := by
    apply splitNN_joinNN hne
    intro b hb
    refine ⟨(hp b hb).2.2, ?_⟩
    rw [← (hp b hb).1]
    exact endsNL_stripT b
  rw [parseSourceChunks, if_neg (by rw [hstrip]; simpa [List.isEmpty_iff] using hjoin_ne)]
  rw [hstrip, hsplit]
  have hfilter : tops.filter (fun c => !(stripT c).isEmpty) = tops := by
    apply List.filter_eq_self.mpr
    intro c hc
    rw [(hp c hc).1]
    simpa [List.isEmpty_iff] using (hp c hc).2.1
  rw [hfilter]
  apply List.map_congr_left
  intro c hc
  rw [(hp c hc).1]

/-- Unfolding of a trim step at its own key when chunks exist. -/
theorem trimStep_self_chunks (currentYear : ℤ) (results : ResultsMap) (query : Text)
    (maxTotal : ℕ) (m : ResultsMap) (s : Text)
    (h : parseSourceChunks ((results s).getD (.str [])) ≠ []) :
    trimStep currentYear results query maxTotal m s s
      = some (if (((sortDesc ((parseSourceChunks ((results s).getD (.str []))).map
              (fun p => (p.1, scoreChunk currentYear query p.2)))).take maxTotal).map
              Prod.fst).isEmpty
          then (results s).getD (.str (txt "No results"))
          else .str (joinNN (((sortDesc ((parseSourceChunks
              ((results s).getD (.str []))).map
              (fun p => (p.1, scoreChunk currentYear query p.2)))).take maxTotal).map
              Prod.fst))) := by
  rw [trimStep, if_neg (by simpa [List.isEmpty_iff] using h), updateKey, if_pos rfl]

/-- The kept top chunks are non-empty when at least one chunk parses and
`max_total` is at least 1. -/
theorem top_ne_nil {currentYear : ℤ} {results : ResultsMap} {query : Text}
    {maxTotal : ℕ} {s : Text} (hmt : 1 ≤ maxTotal)
    (h : parseSourceChunks ((results s).getD (.str [])) ≠ []) :
    (((sortDesc ((parseSourceChunks ((results s).getD (.str []))).map
        (fun p => (p.1, scoreChunk currentYear query p.2)))).take maxTotal).map
        Prod.fst) ≠ [] := by
  intro hx
  have hlen := congrArg List.length hx
  rw [List.length_map, List.length_take, length_sortDesc, List.length_map] at hlen
  simp only [List.length_nil] at hlen
  rcases Nat.min_eq_zero_iff.mp hlen with h0 | h0
  · omega
  · exact h (List.length_eq_zero.mp h0)

/-- C4 counterexample: with `max_total = 0` the trimmed list is empty and
falsy, so the source keeps its original two-block value — more than
`max_total` blocks. -/
theorem c4_trim_zero_counterexample :
    (parseSourceChunks ((rankAndTrimResults 2026
        (fun k => if k = txt "arxiv"
          then some (.str (txt "Paper A\nURL: u\n\nPaper B\nURL: v")) else none)
        (txt "q") 0 (txt "arxiv")).getD (.str []))).length = 2 ∧
    rankAndTrimResults 2026
        (fun k => if k = txt "arxiv"
          then some (.str (txt "Paper A\nURL: u\n\nPaper B\nURL: v")) else none)
        (txt "q") 0 (txt "arxiv")
      = some (.str (txt "Paper A\nURL: u\n\nPaper B\nURL: v")) := by
  refine ⟨by decide, by decide⟩

/-- C4 amended: for `max_total ≥ 1`, each of the three sources carries at
most `max_total` parseable blocks after trimming; the sort is stable (for
every score value the equal-score papers keep their input order, so the
earlier paper ranks first); and a source with parseable chunks is exactly
the blank-line join of the first `max_total` chunk texts in stable
descending score order. -/
theorem c4_rank_trim_bound_stable (currentYear : ℤ) (results : ResultsMap)
    (query : Text) (maxTotal : ℕ) (hmt : 1 ≤ maxTotal) (s : Text)
    (hs : s = txt "arxiv" ∨ s = txt "pubmed" ∨ s = txt "openalex") :
    (parseSourceChunks ((rankAndTrimResults currentYear results query maxTotal s).getD
        (.str []))).length ≤ maxTotal ∧
    (∀ (l : List (Text × ℚ)) (k : ℚ),
      (sortDesc l).filter (fun e => decide (e.2 = k))
        = l.filter (fun e => decide (e.2 = k))) ∧
    (parseSourceChunks ((results s).getD (.str [])) ≠ [] →
      rankAndTrimResults currentYear results query maxTotal s
        = some (.str (joinNN (((sortDesc ((parseSourceChunks
            ((results s).getD (.str []))).map
            (fun p => (p.1, scoreChunk currentYear query p.2)))).take maxTotal).map
            Prod.fst)))) := by
  have hself : ∀ m : ResultsMap,
      parseSourceChunks ((results s).getD (.str [])) ≠ [] →
      trimStep currentYear results query maxTotal m s s
        = some (.str (joinNN (((sortDesc ((parseSourceChunks
            ((results s).getD (.str []))).map
            (fun p => (p.1, scoreChunk currentYear query p.2)))).take maxTotal).map
            Prod.fst))) := by
    intro m hch
    rw [trimStep_self_chunks _ _ _ _ _ _ hch,
      if_neg (by simpa [List.isEmpty_iff] using top_ne_nil hmt hch)]
  have hout : parseSourceChunks ((results s).getD (.str [])) ≠ [] →
      rankAndTrimResults currentYear results query maxTotal s
        = some (.str (joinNN (((sortDesc ((parseSourceChunks
            ((results s).getD (.str []))).map
            (fun p => (p.1, scoreChunk currentYear query p.2)))).take maxTotal).map
            Prod.fst))) := by
    intro hch
    rw [rankAndTrimResults]
    rcases hs with h | h | h
    · subst h
      rw [trimStep_other _ _ _ _ _ _ _ (by decide),
        trimStep_other _ _ _ _ _ _ _ (by decide), hself _ hch]
    · subst h
      rw [trimStep_other _ _ _ _ _ _ _ (by decide), hself _ hch]
    · subst h
      rw [hself _ hch]
  refine ⟨?_, filter_sortDesc, hout⟩
  by_cases hch : parseSourceChunks ((results s).getD (.str [])) = []
  · have hunch : rankAndTrimResults currentYear results query maxTotal s = results s := by
      rw [rankAndTrimResults]
      rcases hs with h | h | h
      · subst h
        rw [trimStep_other _ _ _ _ _ _ _ (by decide),
          trimStep_other _ _ _ _ _ _ _ (by decide),
          trimStep_no_chunks _ _ _ _ _ _ hch]
      · subst h
        rw [trimStep_other _ _ _ _ _ _ _ (by decide),
          trimStep_no_chunks _ _ _ _ _ _ hch,
          trimStep_other _ _ _ _ _ _ _ (by decide)]
      · subst h
        rw [trimStep_no_chunks _ _ _ _ _ _ hch,
          trimStep_other _ _ _ _ _ _ _ (by decide),
          trimStep_other _ _ _ _ _ _ _ (by decide)]
    rw [hunch, hch]
    simp
  · rw [hout hch]
    have htop_props : ∀ x ∈ (((sortDesc ((parseSourceChunks
        ((results s).getD (.str []))).map
        (fun p => (p.1, scoreChunk currentYear query p.2)))).take maxTotal).map
        Prod.fst), stripT x = x ∧ x ≠ [] ∧ noNN x = true := by
      intro x hx
      obtain ⟨pair, hpair, hx1⟩ := List.mem_map.mp hx
      have h2 : pair ∈ sortDesc ((parseSourceChunks ((results s).getD (.str []))).map
          (fun p => (p.1, scoreChunk currentYear query p.2))) :=
        List.take_subset _ _ hpair
      have h3 := mem_sortDesc.mp h2
      obtain ⟨p, hp, hpe⟩ := List.mem_map.mp h3
      have hxp : x = p.1 := by rw [← hx1, ← hpe]
      rw [hxp]
      exact parseSourceChunks_props (show (p.1, p.2) ∈ _ from hp)
    rw [show ((some (PyVal.str (joinNN (((sortDesc ((parseSourceChunks
        ((results s).getD (.str []))).map
        (fun p => (p.1, scoreChunk currentYear query p.2)))).take maxTotal).map
        Prod.fst)))).getD (PyVal.str []))
      = PyVal.str (joinNN (((sortDesc ((parseSourceChunks
        ((results s).getD (.str []))).map
        (fun p => (p.1, scoreChunk currentYear query p.2)))).take maxTotal).map
        Prod.fst)) from rfl]
    rw [parseSourceChunks_joinNN (top_ne_nil hmt hch) htop_props]
    rw [List.length_map, List.length_map, List.length_take]
    omega

/-- Witness for the amended C4 at a concrete two-paper source with
`max_total = 1`. -/
theorem c4_rank_trim_bound_stable_witness :
    (1 ≤ 1 ∧ ((txt "arxiv") = txt "arxiv" ∨ (txt "arxiv") = txt "pubmed" ∨
      (txt "arxiv") = txt "openalex")) ∧
    ((parseSourceChunks ((rankAndTrimResults 2026
        (fun k => if k = txt "arxiv"
          then some (.str (txt "Paper A\nURL: u\n\nPaper B\nURL: v")) else none)
        (txt "paper") 1 (txt "arxiv")).getD (.str []))).length ≤ 1 ∧
    (∀ (l : List (Text × ℚ)) (k : ℚ),
      (sortDesc l).filter (fun e => decide (e.2 = k))
        = l.filter (fun e => decide (e.2 = k))) ∧
    (parseSourceChunks (((fun k => if k = txt "arxiv"
          then some (PyVal.str (txt "Paper A\nURL: u\n\nPaper B\nURL: v")) else none)
            (txt "arxiv")).getD (.str [])) ≠ [] →
      rankAndTrimResults 2026
          (fun k => if k = txt "arxiv"
            then some (.str (txt "Paper A\nURL: u\n\nPaper B\nURL: v")) else none)
          (txt "paper") 1 (txt "arxiv")
        = some (.str (joinNN (((sortDesc ((parseSourceChunks
            (((fun k => if k = txt "arxiv"
              then some (PyVal.str (txt "Paper A\nURL: u\n\nPaper B\nURL: v")) else none)
                (txt "arxiv")).getD (.str []))).map
            (fun p => (p.1, scoreChunk 2026 (txt "paper") p.2)))).take 1).map
            Prod.fst))))) :=
  ⟨⟨by decide, Or.inl rfl⟩,
    c4_rank_trim_bound_stable 2026
      (fun k => if k = txt "arxiv"
        then some (.str (txt "Paper A\nURL: u\n\nPaper B\nURL: v")) else none)
      (txt "paper") 1 (by decide) (txt "arxiv") (Or.inl rfl)⟩

/-- C1 (code bug): the domain classifier judges the single paper of
`quantumCombined` relevant, yet the domain-filtering step of
`enhanced_search` retains nothing, because it recomputes the paper id
from the raw title line `Quantum Entanglement (2023) by Alice` while the
parser hashed the cleaned title `Quantum Entanglement`; whenever those two
hashes differ modulo 10000 — which holds for Python's seed-randomised
string hash for all but a vanishing fraction of seeds — the id lookup
fails and the judged-relevant paper is dropped. -/
theorem c1_domain_filter_drops_relevant_paper (pyHash : Text → ℤ)
    (domainInfoOf : DomainClassificationResult → Text)
    (hneq : mkPaperId 0 ((pyHash (txt "Quantum Entanglement")).emod 10000)
        ≠ mkPaperId 0 ((pyHash (txt "Quantum Entanglement (2023) by Alice")).emod 10000)) :
    (classifyPapersByDomain pyHash oraclePhysics ctxPhysics quantumCombined).length = 1 ∧
    (∀ r ∈ classifyPapersByDomain pyHash oraclePhysics ctxPhysics quantumCombined,
      r.isRelevantToContext = true) ∧
    domainFilterStep pyHash domainInfoOf quantumCombined
      (classifyPapersByDomain pyHash oraclePhysics ctxPhysics quantumCombined) = [] := by
  have hclass : classifyPapersByDomain pyHash oraclePhysics ctxPhysics quantumCombined
      = [{ paperId := mkPaperId 0 ((pyHash (txt "Quantum Entanglement")).emod 10000),
           detectedDomains := [.physics],
           domainScores := [(.physics, 1)],
           isRelevantToContext := true,
           relevanceScore := 7 / 10,
           exclusionReasons := [] }] := rfl
  refine ⟨by rw [hclass]; rfl, ?_, ?_⟩
  · intro r hr
    rw [hclass] at hr
    rcases List.mem_singleton.mp hr with h
    rw [h]
  · rw [hclass]
    show joinNN (domainFilterBlocks pyHash domainInfoOf _ _ 0 (splitNN quantumCombined)) = []
    rw [show splitNN quantumCombined = [quantumCombined] from rfl]
    rw [domainFilterBlocks]
    rw [if_neg (by decide)]
    rw [show (quantumCombined.takeWhile (fun ch => ch ≠ '\n'))
          = txt "Quantum Entanglement (2023) by Alice" from rfl]
    rw [if_neg]
    · rfl
    · intro hm
      have h2 : mkPaperId 0 ((pyHash (txt "Quantum Entanglement (2023) by Alice")).emod 10000)
          = mkPaperId 0 ((pyHash (txt "Quantum Entanglement")).emod 10000) := by
        simpa [List.filter] using hm
      exact hneq h2.symm

/-- Witness for C1 at a concrete hash function (string length) for which
the cleaned-title id and the raw-line id indeed differ. -/
theorem c1_domain_filter_drops_relevant_paper_witness :
    (mkPaperId 0 (((fun t : Text => (t.length : ℤ)) (txt "Quantum Entanglement")).emod 10000)
        ≠ mkPaperId 0 (((fun t : Text => (t.length : ℤ))
            (txt "Quantum Entanglement (2023) by Alice")).emod 10000)) ∧
    ((classifyPapersByDomain (fun t : Text => (t.length : ℤ)) oraclePhysics ctxPhysics
        quantumCombined).length = 1 ∧
    (∀ r ∈ classifyPapersByDomain (fun t : Text => (t.length : ℤ)) oraclePhysics ctxPhysics
        quantumCombined, r.isRelevantToContext = true) ∧
    domainFilterStep (fun t : Text => (t.length : ℤ)) (fun _ => []) quantumCombined
      (classifyPapersByDomain (fun t : Text => (t.length : ℤ)) oraclePhysics ctxPhysics
        quantumCombined) = []) :=
  ⟨by decide,
    c1_domain_filter_drops_relevant_paper (fun t : Text => (t.length : ℤ))
      (fun _ => []) (by decide)⟩

/-- C7 counterexample: in the fan-out list `[q1, q2]` the second query's
primary attempt yields zero entries, yet its fetch still returns a paper,
obtained through the broad `all:` form — the switch to the broader query
form is applied per query inside the fetcher, not only for the first
query of the list. -/
theorem c7_broaden_second_query_counterexample :
    (executeSearchQueries
        (fun q => Except.ok (fetchArxiv c7Entries c7Build q 5 0))
        [txt "q1", txt "q2"]).1
      = [txt "A1 (2023) by A\nAbstract: s\nURL: l",
         txt "B2 (2024) by B\nAbstract: s\nURL: l"] ∧
    (∀ start, c7Entries (c7Build (txt "q2")) start = []) ∧
    fetchArxiv c7Entries c7Build (txt "q2") 5 0
      = txt "B2 (2024) by B\nAbstract: s\nURL: l" := by
  refine ⟨by decide, ?_, by decide⟩
  intro start
  show (if txt "PRIMARY-q2" = txt "PRIMARY-q1" ∧ start = 0 then [entryA1]
    else if txt "PRIMARY-q2" = txt "all:q2" ∧ start = 0 then [entryB2]
    else []) = []
  rw [if_neg (fun h => by exact absurd h.1 (by decide)),
    if_neg (fun h => by exact absurd h.1 (by decide))]

/-- C7 amended: inside the fetcher, once the attempt index has moved to
the fallback, the loop behaves exactly like a fetch whose only attempt is
the fallback (so no second switch can occur), and an empty first page of
the primary attempt switches to the fallback immediately, with the page
count reset.  This broadening is applied by `_fetch` for every query the
fan-out passes it, not only for the first query of the list. -/
theorem c7_broaden_per_query_amended (entriesFor : Text → ℕ → List ArxivEntry)
    (p f : Text) (maxResults minYear pageSize fuel : ℕ)
    (hempty : entriesFor p 0 = []) :
    (∀ (fuel2 : ℕ) (collected : List Text) (start pagesTried : ℕ),
      fetchLoop entriesFor [p, f] maxResults minYear pageSize fuel2
          collected start pagesTried 1
        = fetchLoop entriesFor [f] maxResults minYear pageSize fuel2
            collected start pagesTried 0) ∧
    fetchLoop entriesFor [p, f] maxResults minYear pageSize (fuel + 1) [] 0 0 0
      = fetchLoop entriesFor [f] maxResults minYear pageSize fuel [] 0 0 0 := by
  have hsame : ∀ (fuel2 : ℕ) (collected : List Text) (start pagesTried : ℕ),
      fetchLoop entriesFor [p, f] maxResults minYear pageSize fuel2
          collected start pagesTried 1
        = fetchLoop entriesFor [f] maxResults minYear pageSize fuel2
            collected start pagesTried 0 := by
    intro fuel2
    induction fuel2 with
    | zero => intro collected start pagesTried; rfl
    | succ n ih =>
      intro collected start pagesTried
      rw [fetchLoop, fetchLoop]
      by_cases hguard : maxResults ≤ collected.length ∨ 5 ≤ pagesTried
      · rw [if_pos hguard, if_pos hguard]
      · rw [if_neg hguard, if_neg hguard]
        rw [show ([p, f].getD 1 [] : Text) = f from rfl,
          show ([f].getD 0 [] : Text) = f from rfl]
        by_cases hent : (entriesFor f start).isEmpty
        · rw [if_pos hent, if_pos hent]
          rw [if_neg (by simp), if_neg (by simp)]
        · rw [if_neg hent, if_neg hent, ih]
  refine ⟨hsame, ?_⟩
  rw [fetchLoop]
  by_cases hmr : maxResults ≤ ([] : List Text).length ∨ 5 ≤ 0
  · rw [if_pos hmr]
    have hmr0 : maxResults = 0 := by
      rcases hmr with h | h
      · simpa using h
      · omega
    subst hmr0
    cases fuel with
    | zero => rfl
    | succ n =>
      rw [fetchLoop, if_pos (by simp)]
  · rw [if_neg hmr]
    rw [show ([p, f].getD 0 [] : Text) = p from rfl]
    rw [if_pos (by rw [hempty]; rfl), if_pos (by simp)]
    exact hsame fuel [] 0 0

/-- Witness for the amended C7 at the concrete C7 feed. -/
theorem c7_broaden_per_query_amended_witness :
    c7Entries (txt "PRIMARY-q2") 0 = [] ∧
    ((∀ (fuel2 : ℕ) (collected : List Text) (start pagesTried : ℕ),
      fetchLoop c7Entries [txt "PRIMARY-q2", txt "all:q2"] 5 0 10 fuel2
          collected start pagesTried 1
        = fetchLoop c7Entries [txt "all:q2"] 5 0 10 fuel2
            collected start pagesTried 0) ∧
    fetchLoop c7Entries [txt "PRIMARY-q2", txt "all:q2"] 5 0 10 12 [] 0 0 0
      = fetchLoop c7Entries [txt "all:q2"] 5 0 10 11 [] 0 0 0) :=
  ⟨by decide,
    c7_broaden_per_query_amended c7Entries (txt "PRIMARY-q2") (txt "all:q2")
      5 0 10 11 (by decide)⟩
